import Mathlib

/-!
Verification development for the Outpost trading system: a shallow embedding of
the royalty policy component (`royalty_standalone_component.rs`), the seller
escrow account (`outpost_account.rs`) and the fee-routing marketplace
(`generic_marketplace.rs`), together with theorems about the properties the
specification states.

Modelling conventions:
* Scrypto `Decimal` values are 10^18-scaled integers (`I192`); we model them as
  `Int` (for rates, which carry no sign restriction in the source) and vault or
  bucket amounts as `Nat` (ledger buckets never hold negative amounts), both in
  atto-units.  `Decimal` multiplication computes the wide product and divides by
  10^18 truncating toward zero; `take_advanced(.., Rounded(ToZero))` truncates
  the requested amount toward zero to the currency divisibility.
* `KeyValueStore`s become association lists with insert-or-replace semantics;
  `Vault`s of non-fungibles become lists of local ids keyed by resource address.
* Every method that can abort (a failed `assert!`, `expect`, `unwrap`, vault
  underflow or index out of bounds) returns `Except Err ..`; an `Except.error`
  models the whole transaction aborting with no state change.
* `Runtime::transaction_hash()` is passed in explicitly as a parameter, and the
  ledger-side question "does this account hold this non-fungible" is passed as
  an explicit `holds` function.
-/

namespace Outpost

abbrev ResourceAddr := Nat
abbrev LocalId := Nat
abbrev Nfgid := ResourceAddr × LocalId
abbrev AccountAddr := Nat
abbrev TxHash := Nat

/-- The scale factor of Scrypto `Decimal` (`Decimal::ONE` = 10^18 atto-units). -/
def ONE : Int := 10 ^ 18

/-- `Decimal` multiplication: wide product divided by 10^18, truncated toward
zero (Rust integer division on the `I384` intermediate truncates toward zero). -/
def decMul (a b : Int) : Int := Int.tdiv (a * b) ONE

/-- Rounding a requested amount toward zero to a whole number of `step`
atto-units, where `step = 10^(18 - divisibility)`; this is
`WithdrawStrategy::Rounded(RoundingMode::ToZero)`. -/
def roundStep (v : Int) (step : Nat) : Int := Int.tdiv v step * step

/-- Association-list lookup (first entry with the key). -/
def alookup {α β : Type} [DecidableEq α] : List (α × β) → α → Option β
  | [], _ => none
  | (k, v) :: rest, a => if a = k then some v else alookup rest a

/-- Association-list insert-or-replace (`KeyValueStore::insert`). -/
def ainsert {α β : Type} [DecidableEq α] : List (α × β) → α → β → List (α × β)
  | [], a, v => [(a, v)]
  | (k, w) :: rest, a, v =>
      if a = k then (k, v) :: rest else (k, w) :: ainsert rest a v

/-- Association-list removal of the entry with the key (`KeyValueStore::remove`). -/
def aremove {α β : Type} [DecidableEq α] : List (α × β) → α → List (α × β)
  | [], _ => []
  | (k, w) :: rest, a => if a = k then rest else (k, w) :: aremove rest a

/-- The ids currently held in the non-fungible vault for a resource
(empty when no vault exists yet). -/
def glook {α : Type} [DecidableEq α] (l : List (α × List Nat)) (a : α) : List Nat :=
  (alookup l a).getD []

/-- Errors: every `assert!`/`expect`/`unwrap`/underflow that aborts a call. -/
inductive Err where
  | listingNotFound
  | permissionDenied
  | paymentAmountMismatch
  | paymentCurrencyMismatch
  | replayDetected
  | nftNotFound
  | policyMismatch
  | buyerNotPermitted
  | currencyNotPermitted
  | belowMinimumRoyalty
  | missingMinimumRoyalty
  | invalidTake
  | wrongTokenAmount
  | wrongToken
  | noPendingTransfer
  | transferNotObserved
  | noTransientToken
  | configLocked
  | maxBelowRate
  | rateAboveMax
  | rateAboveOne
  | emptyBatch
  | mixedCurrencies
  | priceNotPositive
  | emptyBucket
  | wrongCollection
  | missingItems
  deriving DecidableEq, Repr

instance {ε α : Type} [DecidableEq ε] [DecidableEq α] : DecidableEq (Except ε α)
  | .error e, .error f =>
      if h : e = f then .isTrue (by rw [h]) else .isFalse (fun hh => h (Except.error.inj hh))
  | .error _, .ok _ => .isFalse (fun hh => Except.noConfusion hh)
  | .ok _, .error _ => .isFalse (fun hh => Except.noConfusion hh)
  | .ok a, .ok b =>
      if h : a = b then .isTrue (by rw [h]) else .isFalse (fun hh => h (Except.ok.inj hh))

/-! ## RoyaltyPolicy: the `RoyaltyConfig` state and its configuration mutators
(`royalty_standalone_component.rs`). -/

structure RoyaltyConfig where
  restrictedMovement : Bool
  royaltyPercent : Int
  maximumRoyaltyPercent : Int
  limitCurrencies : Bool
  permittedCurrencies : List ResourceAddr
  minimumRoyalties : Bool
  minimumRoyaltyAmounts : List (ResourceAddr × Int)
  limitDapps : Bool
  permissionedDapps : List (Nat × ResourceAddr)
  limitBuyers : Bool
  permissionedBuyers : List ResourceAddr
  limitPrivateTrade : Bool
  royaltyConfigurationLocked : Bool
  honoured : Bool
  deriving DecidableEq, Repr

/-- `start_royalty_nft`: asserts `royalty_percent <= 1` and
`royalty_percent <= maximum_royalty_percent`, then builds the fresh config.
(No assertion bounds `maximum_royalty_percent` itself, and none requires
`royalty_percent >= 0`.) -/
def startRoyaltyNft (royaltiesEnabled honoured : Bool)
    (royaltyPercent maximumRoyaltyPercent : Int) : Except Err RoyaltyConfig :=
  if royaltyPercent ≤ ONE then
    if royaltyPercent ≤ maximumRoyaltyPercent then
      .ok {
        restrictedMovement := royaltiesEnabled
        honoured := honoured
        royaltyPercent := royaltyPercent
        maximumRoyaltyPercent := maximumRoyaltyPercent
        limitBuyers := false
        limitCurrencies := false
        limitDapps := false
        limitPrivateTrade := false
        minimumRoyalties := false
        permittedCurrencies := []
        minimumRoyaltyAmounts := []
        permissionedDapps := []
        permissionedBuyers := []
        royaltyConfigurationLocked := false }
    else .error .rateAboveMax
  else .error .rateAboveOne

/-- `change_royalty_percentage_fee`: fails when the configuration is locked or
the new rate exceeds the maximum. -/
def changeRoyaltyPercentageFee (c : RoyaltyConfig) (newRoyaltyPercent : Int) :
    Except Err RoyaltyConfig :=
  if c.royaltyConfigurationLocked then .error .configLocked
  else if newRoyaltyPercent ≤ c.maximumRoyaltyPercent then
    .ok { c with royaltyPercent := newRoyaltyPercent }
  else .error .rateAboveMax

/-- `lower_maximum_royalty_percentage`: the only assertion is that the new
maximum is not below the current rate; there is no locked check and no check
that the new maximum is actually lower than the old one. -/
def lowerMaximumRoyaltyPercentage (c : RoyaltyConfig) (newMaxRoyaltyPercent : Int) :
    Except Err RoyaltyConfig :=
  if c.royaltyPercent ≤ newMaxRoyaltyPercent then
    .ok { c with maximumRoyaltyPercent := newMaxRoyaltyPercent }
  else .error .maxBelowRate

/-- `lock_royalty_configuration`: one-way latch, cannot fail. -/
def lockRoyaltyConfiguration (c : RoyaltyConfig) : RoyaltyConfig :=
  { c with royaltyConfigurationLocked := true }

/-- The royalty-policy states reachable through component creation and the
rate-related configuration operations. -/
inductive ReachCfg : RoyaltyConfig → Prop where
  | create (re ho : Bool) (rp mrp : Int) (c : RoyaltyConfig) :
      startRoyaltyNft re ho rp mrp = .ok c → ReachCfg c
  | change (c : RoyaltyConfig) (x : Int) (c' : RoyaltyConfig) :
      ReachCfg c → changeRoyaltyPercentageFee c x = .ok c' → ReachCfg c'
  | lower (c : RoyaltyConfig) (x : Int) (c' : RoyaltyConfig) :
      ReachCfg c → lowerMaximumRoyaltyPercentage c x = .ok c' → ReachCfg c'
  | lock (c : RoyaltyConfig) : ReachCfg c → ReachCfg (lockRoyaltyConfiguration c)

/-! ## RoyaltyPolicy: the payment side (`pay_royalty` / `pay_royalty_basic`). -/

structure RoyaltyState where
  config : RoyaltyConfig
  /-- The collection bound to this policy (`nft_manager.address()`). -/
  nftAddress : ResourceAddr
  /-- `royalty_vaults`: accumulated royalty balance per currency, atto-units. -/
  royaltyVaults : List (ResourceAddr × Nat)
  deriving DecidableEq, Repr

/-- A fungible payment bucket: (resource address, amount in atto-units). -/
abbrev FBucket := ResourceAddr × Nat

/-- The body shared verbatim by the two `vault_exists` branches of
`pay_royalty`/`pay_royalty_basic`: take
`payment.amount * royalty_percent` from the payment rounded toward zero to the
currency divisibility (`dstep currency` atto-units per divisibility step), check
the configured minimum when enabled, and credit the royalty vault for the
currency.  The take aborts when the requested amount is negative or exceeds the
payment (that is `take_advanced` panicking). -/
def payRoyaltyCore (dstep : ResourceAddr → Nat) (st : RoyaltyState)
    (currency : ResourceAddr) (paymentAmount : Nat) :
    Except Err (RoyaltyState × Nat) :=
  let t : Int := roundStep (decMul paymentAmount st.config.royaltyPercent) (dstep currency)
  if 0 ≤ t ∧ t ≤ (paymentAmount : Int) then
    let take := t.toNat
    let credited : RoyaltyState :=
      { st with royaltyVaults :=
          ainsert st.royaltyVaults currency ((alookup st.royaltyVaults currency).getD 0 + take) }
    if st.config.limitCurrencies ∧ st.config.minimumRoyalties then
      match alookup st.config.minimumRoyaltyAmounts currency with
      | none => .error .missingMinimumRoyalty
      | some minRoyalty =>
          if minRoyalty ≤ t then .ok (credited, paymentAmount - take)
          else .error .belowMinimumRoyalty
    else .ok (credited, paymentAmount - take)
  else .error .invalidTake

/-- `pay_royalty_basic(nft, payment, buyer)`: resource check, optional buyer
allow-list check, optional currency allow-list check, then the royalty take.
Returns the updated policy state and the remainder returned to the caller. -/
def payRoyaltyBasic (dstep : ResourceAddr → Nat) (st : RoyaltyState)
    (nft : ResourceAddr) (payment : FBucket) (buyer : ResourceAddr) :
    Except Err (RoyaltyState × Nat) :=
  if nft = st.nftAddress then
    if st.config.limitBuyers ∧ buyer ∉ st.config.permissionedBuyers then
      .error .buyerNotPermitted
    else if st.config.limitCurrencies ∧ payment.1 ∉ st.config.permittedCurrencies then
      .error .currencyNotPermitted
    else payRoyaltyCore dstep st payment.1 payment.2
  else .error .policyMismatch

/-- `pay_royalty(nft, local_ids, payment, buyer, account)`: identical checks and
royalty arithmetic to `pay_royalty_basic` (the local ids and destination account
play no role in the payment split). -/
def payRoyalty (dstep : ResourceAddr → Nat) (st : RoyaltyState)
    (nft : ResourceAddr) (localIds : List LocalId) (payment : FBucket)
    (buyer : ResourceAddr) (account : AccountAddr) :
    Except Err (RoyaltyState × Nat) :=
  if nft = st.nftAddress then
    if st.config.limitBuyers ∧ buyer ∉ st.config.permissionedBuyers then
      .error .buyerNotPermitted
    else if st.config.limitCurrencies ∧ payment.1 ∉ st.config.permittedCurrencies then
      .error .currencyNotPermitted
    else payRoyaltyCore dstep st payment.1 payment.2
  else .error .policyMismatch

/-- Current royalty vault balance for a currency. -/
def vaultBal (st : RoyaltyState) (currency : ResourceAddr) : Nat :=
  (alookup st.royaltyVaults currency).getD 0

/-! ## EscrowAccount: the `OpenTrader` component (`outpost_account.rs`). -/

structure Listing where
  secondarySellerPermissions : List ResourceAddr
  currency : ResourceAddr
  price : Nat
  nfgid : Nfgid
  outpostAccount : Nat
  deriving DecidableEq, Repr

/-- The deposit rule currently active on the collection's resource manager:
relaxed to `allow_all` while a settlement is open, restored to the restrictive
rule (`require(royal_admin) || require(global_caller(royalty_component))`) by
`cleared`/`multi_cleared`. -/
inductive DepositRule where
  | allowAll
  | restricted
  deriving DecidableEq, Repr

structure Trader where
  listings : List (Nfgid × Listing)
  /-- `nft_vaults`: local ids held in escrow, keyed by resource address. -/
  nftVaults : List (ResourceAddr × List LocalId)
  /-- `transactions`: replay guard of transaction hashes in which a royalty
  listing was created. -/
  transactions : List TxHash
  /-- `latest_transaction`: the outstanding single-item `PendingTransfer`. -/
  latestTransaction : Option (ResourceAddr × LocalId × AccountAddr)
  /-- `latest_bulk_transaction`: the outstanding bulk `PendingTransfer`. -/
  latestBulkTransaction : Option (AccountAddr × List Nfgid)
  /-- Number of transient tokens in the account's transient vault. -/
  transientTokens : Nat
  transientTokenAddress : ResourceAddr
  /-- `trader_account_component_address`. -/
  accountComponent : Nat
  /-- Sales proceeds delivered to the seller through the account locker,
  per currency. -/
  sellerRevenue : List (ResourceAddr × Nat)
  deriving DecidableEq, Repr

/-- The pieces of on-ledger state a purchase or clearing call touches: the
trader account, the collection's royalty component and the collection's
deposit rule. -/
structure World where
  trader : Trader
  royalty : RoyaltyState
  nftRule : DepositRule
  deriving DecidableEq, Repr

/-- Put a bucket of non-fungibles into the escrow vault for a resource
(the `vault_exists` branch pair in the source). -/
def vaultPut (vaults : List (ResourceAddr × List LocalId)) (r : ResourceAddr)
    (ids : List LocalId) : List (ResourceAddr × List LocalId) :=
  ainsert vaults r (glook vaults r ++ ids)

/-- Credit the seller's revenue (account-locker store) for a currency. -/
def creditRev (rev : List (ResourceAddr × Nat)) (currency : ResourceAddr)
    (amount : Nat) : List (ResourceAddr × Nat) :=
  ainsert rev currency ((alookup rev currency).getD 0 + amount)

/-- Revenue delivered to the seller so far for a currency. -/
def sellerRev (t : Trader) (currency : ResourceAddr) : Nat :=
  (alookup t.sellerRevenue currency).getD 0

/-- `royal_list`: price must be positive, the current transaction hash is
recorded in the replay guard, the listing is inserted and the item moves into
the escrow vault. -/
def royalList (w : World) (txHash : TxHash) (item : Nfgid) (price : Nat)
    (currency : ResourceAddr) (permissions : List ResourceAddr) : Except Err World :=
  if price = 0 then .error .priceNotPositive
  else
    let t := w.trader
    let newListing : Listing :=
      { secondarySellerPermissions := permissions, currency := currency,
        price := price, nfgid := item, outpostAccount := t.accountComponent }
    .ok { w with trader :=
      { t with
        transactions := txHash :: t.transactions
        listings := ainsert t.listings item newListing
        nftVaults := vaultPut t.nftVaults item.1 [item.2] } }

/-- Core of `royal_multi_list`/`multi_list`: insert a listing per `(nfgid,
price)` pair, validate the provided bucket (non-empty; every listed item from
the bucket's collection with a positive price; the bucket's ids a superset of
the listed ids) and move the whole bucket into the escrow vault. -/
def multiListCore (t : Trader) (pairs : List (Nfgid × Nat))
    (currency : ResourceAddr) (permissions : List ResourceAddr)
    (items : ResourceAddr × List LocalId) : Except Err Trader :=
  let newListings :=
    pairs.foldl (fun ls gp =>
      ainsert ls gp.1
        { secondarySellerPermissions := permissions, currency := currency,
          price := gp.2, nfgid := gp.1, outpostAccount := t.accountComponent })
      t.listings
  let t1 := { t with listings := newListings }
  if items.2 = [] then .error .emptyBucket
  else if ∀ gp ∈ pairs, gp.1.1 = items.1 then
    if ∀ gp ∈ pairs, 0 < gp.2 then
      if ∀ gp ∈ pairs, gp.1.2 ∈ items.2 then
        .ok { t1 with nftVaults := vaultPut t1.nftVaults items.1 items.2 }
      else .error .missingItems
    else .error .priceNotPositive
  else .error .wrongCollection

/-- `royal_multi_list`: records the transaction hash in the replay guard, then
the shared multi-listing body. -/
def royalMultiList (w : World) (txHash : TxHash) (pairs : List (Nfgid × Nat))
    (currency : ResourceAddr) (permissions : List ResourceAddr)
    (items : ResourceAddr × List LocalId) : Except Err World :=
  match multiListCore { w.trader with transactions := txHash :: w.trader.transactions }
      pairs currency permissions items with
  | .error e => .error e
  | .ok t => .ok { w with trader := t }

/-- `multi_list`: the plain variant records no transaction hash. -/
def multiList (w : World) (pairs : List (Nfgid × Nat)) (currency : ResourceAddr)
    (permissions : List ResourceAddr) (items : ResourceAddr × List LocalId) :
    Except Err World :=
  match multiListCore w.trader pairs currency permissions items with
  | .error e => .error e
  | .ok t => .ok { w with trader := t }

/-- `list`: plain single-item listing (no replay-guard entry). -/
def listOp (w : World) (item : Nfgid) (price : Nat) (currency : ResourceAddr)
    (permissions : List ResourceAddr) : Except Err World :=
  if price = 0 then .error .priceNotPositive
  else
    let t := w.trader
    let newListing : Listing :=
      { secondarySellerPermissions := permissions, currency := currency,
        price := price, nfgid := item, outpostAccount := t.accountComponent }
    .ok { w with trader :=
      { t with
        nftVaults := vaultPut t.nftVaults item.1 [item.2]
        listings := ainsert t.listings item newListing } }

/-- Result handed to the buyer by a royalty purchase: the item(s), one
transient token, and th optional marketplace-fee bucket amount. -/
structure PurchaseOut where
  items : List Nfgid
  feeBucket : Option Nat
  deriving DecidableEq, Repr

/-- `purchase_royal_listing`: records the `PendingTransfer`, validates listing,
permission, payment and replay guard, takes the item out of escrow, relaxes the
deposit rule, pays the royalty on the full payment, takes the marketplace fee
(computed on the full payment from the permission badge's `marketplace_fee`
metadata) out of the remainder, stores the rest for the seller, removes the
listing and hands out one transient token. -/
def purchaseRoyalListing (dstep : ResourceAddr → Nat) (w : World) (txHash : TxHash)
    (nfgid : Nfgid) (payment : FBucket) (permissionRes : ResourceAddr)
    (feeMeta : Option Int) (accountRecipient : AccountAddr) :
    Except Err (World × PurchaseOut) :=
  let t0 := { w.trader with
    latestTransaction := some (nfgid.1, nfgid.2, accountRecipient) }
  match alookup t0.listings nfgid with
  | none => .error .listingNotFound
  | some listing =>
    if permissionRes ∈ listing.secondarySellerPermissions then
      -- fee computed from the metadata rate on the full payment amount,
      -- before the royalty is taken
      let marketplaceFee : Int :=
        match feeMeta with
        | some rate => decMul payment.2 rate
        | none => 0
      if payment.2 = listing.price then
        if payment.1 = listing.currency then
          if txHash ∈ t0.transactions then .error .replayDetected
          else
            match alookup t0.nftVaults nfgid.1 with
            | none => .error .nftNotFound
            | some ids =>
              if nfgid.2 ∈ ids then
                let t1 := { t0 with
                  nftVaults := ainsert t0.nftVaults nfgid.1 (ids.erase nfgid.2) }
                match payRoyaltyBasic dstep w.royalty nfgid.1 payment permissionRes with
                | .error e => .error e
                | .ok (roy, remainder) =>
                  let finish : Option Nat → Nat → Except Err (World × PurchaseOut) :=
                    fun feeB rem2 =>
                      let t2 := { t1 with
                        sellerRevenue := creditRev t1.sellerRevenue payment.1 rem2
                        listings := aremove t1.listings nfgid }
                      if t2.transientTokens = 0 then .error .noTransientToken
                      else .ok (
                        { trader := { t2 with transientTokens := t2.transientTokens - 1 }
                          royalty := roy
                          nftRule := .allowAll },
                        { items := [nfgid], feeBucket := feeB })
                  match feeMeta with
                  | none => finish none remainder
                  | some _ =>
                    let feeTake : Int := roundStep marketplaceFee (dstep payment.1)
                    if 0 ≤ feeTake ∧ feeTake ≤ (remainder : Int) then
                      finish (some feeTake.toNat) (remainder - feeTake.toNat)
                    else .error .invalidTake
              else .error .nftNotFound
        else .error .paymentCurrencyMismatch
      else .error .paymentAmountMismatch
    else .error .permissionDenied

/-- Look up every listing of a batch (`expect("Listing not found")` per item). -/
def listingsOf (ls : List (Nfgid × Listing)) : List Nfgid → Option (List Listing)
  | [] => some []
  | g :: rest =>
    match alookup ls g, listingsOf ls rest with
    | some L, some Ls => some (L :: Ls)
    | _, _ => none

/-- `purchase_multi_royal_listings`: the bulk royalty purchase.  All ids are
taken from the vault of the first item's collection; the royalty is paid once
on the summed payment; one bulk `PendingTransfer` covers the batch. -/
def purchaseMultiRoyalListings (dstep : ResourceAddr → Nat) (w : World)
    (txHash : TxHash) (nfgids : List Nfgid) (payment : FBucket)
    (permissionRes : ResourceAddr) (feeMeta : Option Int)
    (accountRecipient : AccountAddr) : Except Err (World × PurchaseOut) :=
  let t0 := { w.trader with
    latestBulkTransaction := some (accountRecipient, nfgids) }
  match listingsOf t0.listings nfgids with
  | none => .error .listingNotFound
  | some ls =>
    if ∀ L ∈ ls, permissionRes ∈ L.secondarySellerPermissions then
      match nfgids, ls with
      | [], _ => .error .emptyBatch
      | _, [] => .error .emptyBatch
      | g0 :: _, L0 :: _ =>
        if ∀ L ∈ ls, L.currency = L0.currency then
          let totalPrice := (ls.map Listing.price).sum
          if payment.1 = L0.currency then
            if payment.2 = totalPrice then
              let marketplaceFee : Int :=
                match feeMeta with
                | some rate => decMul payment.2 rate
                | none => 0
              if txHash ∈ t0.transactions then .error .replayDetected
              else
                let localIds := (nfgids.map Prod.snd).dedup
                let ids := glook t0.nftVaults g0.1
                if ∀ i ∈ localIds, i ∈ ids then
                  let t1 := { t0 with
                    nftVaults :=
                      ainsert t0.nftVaults g0.1 (ids.filter (fun i => i ∉ localIds))
                    listings := nfgids.foldl (fun l g => aremove l g) t0.listings }
                  match payRoyalty dstep w.royalty g0.1 localIds payment
                      permissionRes accountRecipient with
                  | .error e => .error e
                  | .ok (roy, remainder) =>
                    let finish : Option Nat → Nat → Except Err (World × PurchaseOut) :=
                      fun feeB rem2 =>
                        let t2 := { t1 with
                          sellerRevenue := creditRev t1.sellerRevenue payment.1 rem2 }
                        if t2.transientTokens = 0 then .error .noTransientToken
                        else .ok (
                          { trader := { t2 with transientTokens := t2.transientTokens - 1 }
                            royalty := roy
                            nftRule := .allowAll },
                          { items := nfgids, feeBucket := feeB })
                    match feeMeta with
                    | none => finish none remainder
                    | some _ =>
                      let feeTake : Int := roundStep marketplaceFee (dstep payment.1)
                      if 0 ≤ feeTake ∧ feeTake ≤ (remainder : Int) then
                        finish (some feeTake.toNat) (remainder - feeTake.toNat)
                      else .error .invalidTake
                else .error .nftNotFound
            else .error .paymentAmountMismatch
          else .error .paymentCurrencyMismatch
        else .error .mixedCurrencies
    else .error .permissionDenied

/-- `purchase_listing`: the plain (non-royalty) single purchase.  The
marketplace fee is taken directly out of the payment (only when positive); the
rest of the payment goes to the seller; listing and item are removed. -/
def purchaseListing (dstep : ResourceAddr → Nat) (w : World) (nfgid : Nfgid)
    (payment : FBucket) (permissionRes : ResourceAddr) (feeMeta : Option Int) :
    Except Err (World × PurchaseOut) :=
  let t0 := w.trader
  match alookup t0.listings nfgid with
  | none => .error .listingNotFound
  | some listing =>
    if permissionRes ∈ listing.secondarySellerPermissions then
      let marketplaceFee : Int :=
        match feeMeta with
        | some rate => decMul payment.2 rate
        | none => 0
      if payment.2 = listing.price then
        if payment.1 = listing.currency then
          match alookup t0.nftVaults nfgid.1 with
          | none => .error .nftNotFound
          | some ids =>
            if nfgid.2 ∈ ids then
              let t1 := { t0 with
                nftVaults := ainsert t0.nftVaults nfgid.1 (ids.erase nfgid.2) }
              let finish : Option Nat → Nat → Except Err (World × PurchaseOut) :=
                fun feeB rem2 =>
                  let t2 := { t1 with
                    sellerRevenue := creditRev t1.sellerRevenue payment.1 rem2
                    listings := aremove t1.listings nfgid }
                  .ok ({ w with trader := t2 }, { items := [nfgid], feeBucket := feeB })
              if 0 < marketplaceFee then
                let feeTake : Int := roundStep marketplaceFee (dstep payment.1)
                if 0 ≤ feeTake ∧ feeTake ≤ (payment.2 : Int) then
                  finish (some feeTake.toNat) (payment.2 - feeTake.toNat)
                else .error .invalidTake
              else finish none payment.2
            else .error .nftNotFound
        else .error .paymentCurrencyMismatch
      else .error .paymentAmountMismatch
    else .error .permissionDenied

/-- Take one non-fungible per batch entry out of its own resource's vault and
remove its listing (the per-item loop of `multi_purchase_listing`). -/
def takeItems : Trader → List Nfgid → Except Err Trader
  | t, [] => .ok t
  | t, g :: rest =>
    match alookup t.nftVaults g.1 with
    | none => .error .nftNotFound
    | some ids =>
      if g.2 ∈ ids then
        takeItems
          { t with
            nftVaults := ainsert t.nftVaults g.1 (ids.erase g.2)
            listings := aremove t.listings g } rest
      else .error .nftNotFound

/-- `multi_purchase_listing`: the plain bulk purchase.  Validates each listing
and its permission, one shared currency, summed price; takes the marketplace
fee out of the payment first, then removes every item and listing and stores
the remaining payment for the seller. -/
def multiPurchaseListing (dstep : ResourceAddr → Nat) (w : World)
    (nfgids : List Nfgid) (payment : FBucket) (permissionRes : ResourceAddr)
    (feeMeta : Option Int) : Except Err (World × PurchaseOut) :=
  let t0 := w.trader
  match listingsOf t0.listings nfgids with
  | none => .error .listingNotFound
  | some ls =>
    if ∀ L ∈ ls, permissionRes ∈ L.secondarySellerPermissions then
      match ls with
      | [] => .error .emptyBatch
      | L0 :: _ =>
        if ∀ L ∈ ls, L.currency = L0.currency then
          let totalPrice := (ls.map Listing.price).sum
          if payment.1 = L0.currency then
            if payment.2 = totalPrice then
              let marketplaceFee : Int :=
                match feeMeta with
                | some rate => decMul payment.2 rate
                | none => 0
              let afterFee : Option Nat × Nat → Except Err (World × PurchaseOut) :=
                fun feeRem =>
                  match takeItems t0 nfgids with
                  | .error e => .error e
                  | .ok t1 =>
                    let t2 := { t1 with
                      sellerRevenue := creditRev t1.sellerRevenue payment.1 feeRem.2 }
                    .ok ({ w with trader := t2 },
                      { items := nfgids, feeBucket := feeRem.1 })
              if 0 < marketplaceFee then
                let feeTake : Int := roundStep marketplaceFee (dstep payment.1)
                if 0 ≤ feeTake ∧ feeTake ≤ (payment.2 : Int) then
                  afterFee (some feeTake.toNat, payment.2 - feeTake.toNat)
                else .error .invalidTake
              else afterFee (none, payment.2)
            else .error .paymentAmountMismatch
          else .error .paymentCurrencyMismatch
        else .error .mixedCurrencies
    else .error .permissionDenied

/-- Body shared by `cancel_listing` and `cancel_royal_listing`: take the item
out of its vault, require the listing to exist, and remove it. -/
def cancelCore (t : Trader) (nfgid : Nfgid) : Except Err Trader :=
  match alookup t.nftVaults nfgid.1 with
  | none => .error .nftNotFound
  | some ids =>
    if nfgid.2 ∈ ids then
      match alookup t.listings nfgid with
      | none => .error .listingNotFound
      | some _ =>
        .ok { t with
          nftVaults := ainsert t.nftVaults nfgid.1 (ids.erase nfgid.2)
          listings := aremove t.listings nfgid }
    else .error .nftNotFound

/-- `cancel_listing`: the item is handed back to the caller. -/
def cancelListing (w : World) (nfgid : Nfgid) : Except Err World :=
  match cancelCore w.trader nfgid with
  | .error e => .error e
  | .ok t => .ok { w with trader := t }

/-- `cancel_royal_listing`: same bookkeeping; the item is deposited back to the
seller's own account under the royal-admin authority. -/
def cancelRoyalListing (w : World) (nfgid : Nfgid) : Except Err World :=
  match cancelCore w.trader nfgid with
  | .error e => .error e
  | .ok t => .ok { w with trader := t }

/-- `change_price`: requires the listing to exist; no bound on the new price. -/
def changePrice (w : World) (nfgid : Nfgid) (newPrice : Nat) : Except Err World :=
  match alookup w.trader.listings nfgid with
  | none => .error .listingNotFound
  | some listing =>
    .ok { w with trader := { w.trader with
      listings := ainsert w.trader.listings nfgid { listing with price := newPrice } } }

/-- `add_buyer_permission`. -/
def addBuyerPermission (w : World) (nfgid : Nfgid) (permissionId : ResourceAddr) :
    Except Err World :=
  match alookup w.trader.listings nfgid with
  | none => .error .listingNotFound
  | some listing =>
    .ok { w with trader := { w.trader with
      listings := ainsert w.trader.listings nfgid
        { listing with secondarySellerPermissions :=
            listing.secondarySellerPermissions ++ [permissionId] } } }

/-- `revoke_market_permission`. -/
def revokeMarketPermission (w : World) (nfgid : Nfgid) (permissionId : ResourceAddr) :
    Except Err World :=
  match alookup w.trader.listings nfgid with
  | none => .error .listingNotFound
  | some listing =>
    .ok { w with trader := { w.trader with
      listings := ainsert w.trader.listings nfgid
        { listing with secondarySellerPermissions :=
            listing.secondarySellerPermissions.filter (fun p => p ≠ permissionId) } } }

/-- `cleared(transient_token)`: requires a bucket of exactly one token of the
account's transient class and an outstanding single-item `PendingTransfer`
whose recorded recipient now holds the item; re-vaults the token and restores
the restrictive deposit rule.  Note that `latest_transaction` is left in
place. -/
def cleared (holds : AccountAddr → ResourceAddr → LocalId → Bool) (w : World)
    (tok : FBucket) : Except Err World :=
  if tok.2 = 1 then
    if tok.1 = w.trader.transientTokenAddress then
      match w.trader.latestTransaction with
      | none => .error .noPendingTransfer
      | some (r, l, a) =>
        if holds a r l then
          .ok { w with
            trader := { w.trader with
              transientTokens := w.trader.transientTokens + tok.2 }
            nftRule := .restricted }
        else .error .transferNotObserved
    else .error .wrongToken
  else .error .wrongTokenAmount

/-- `multi_cleared(transient_token)`: the bulk variant.  The amount-equals-one
assertion is commented out in the source, so only the resource address is
checked; every recorded id must be held by the recipient (all of them checked
against the first id's resource address); the bucket is re-vaulted whatever its
amount and the restrictive deposit rule is restored.  `latest_bulk_transaction`
is left in place. -/
def multiCleared (holds : AccountAddr → ResourceAddr → LocalId → Bool) (w : World)
    (tok : FBucket) : Except Err World :=
  if tok.1 = w.trader.transientTokenAddress then
    match w.trader.latestBulkTransaction with
    | none => .error .noPendingTransfer
    | some (a, gs) =>
      match gs with
      | [] => .error .emptyBatch
      | g0 :: _ =>
        if ∀ g ∈ gs, holds a g0.1 g.2 then
          .ok { w with
            trader := { w.trader with
              transientTokens := w.trader.transientTokens + tok.2 }
            nftRule := .restricted }
        else .error .transferNotObserved
  else .error .wrongToken

/-! ## The operations of an `OpenTrader` account, as one step relation. -/

inductive Op where
  | royalList (txHash : TxHash) (item : Nfgid) (price : Nat)
      (currency : ResourceAddr) (permissions : List ResourceAddr)
  | royalMultiList (txHash : TxHash) (pairs : List (Nfgid × Nat))
      (currency : ResourceAddr) (permissions : List ResourceAddr)
      (items : ResourceAddr × List LocalId)
  | list (item : Nfgid) (price : Nat) (currency : ResourceAddr)
      (permissions : List ResourceAddr)
  | multiList (pairs : List (Nfgid × Nat)) (currency : ResourceAddr)
      (permissions : List ResourceAddr) (items : ResourceAddr × List LocalId)
  | purchaseRoyal (dstep : ResourceAddr → Nat) (txHash : TxHash) (nfgid : Nfgid)
      (payment : FBucket) (permissionRes : ResourceAddr) (feeMeta : Option Int)
      (recipient : AccountAddr)
  | purchaseMultiRoyal (dstep : ResourceAddr → Nat) (txHash : TxHash)
      (nfgids : List Nfgid) (payment : FBucket) (permissionRes : ResourceAddr)
      (feeMeta : Option Int) (recipient : AccountAddr)
  | purchase (dstep : ResourceAddr → Nat) (nfgid : Nfgid) (payment : FBucket)
      (permissionRes : ResourceAddr) (feeMeta : Option Int)
  | multiPurchase (dstep : ResourceAddr → Nat) (nfgids : List Nfgid)
      (payment : FBucket) (permissionRes : ResourceAddr) (feeMeta : Option Int)
  | cancel (nfgid : Nfgid)
  | cancelRoyal (nfgid : Nfgid)
  | changePrice (nfgid : Nfgid) (newPrice : Nat)
  | addPermission (nfgid : Nfgid) (permissionId : ResourceAddr)
  | revokePermission (nfgid : Nfgid) (permissionId : ResourceAddr)
  | clear (holds : AccountAddr → ResourceAddr → LocalId → Bool) (tok : FBucket)
  | multiClear (holds : AccountAddr → ResourceAddr → LocalId → Bool) (tok : FBucket)

/-- Run one account operation, discarding returned buckets. -/
def step (op : Op) (w : World) : Except Err World :=
  match op with
  | .royalList tx item price cur perms => royalList w tx item price cur perms
  | .royalMultiList tx pairs cur perms items => royalMultiList w tx pairs cur perms items
  | .list item price cur perms => listOp w item price cur perms
  | .multiList pairs cur perms items => multiList w pairs cur perms items
  | .purchaseRoyal d tx n pay pr fm rec =>
      (purchaseRoyalListing d w tx n pay pr fm rec).map Prod.fst
  | .purchaseMultiRoyal d tx ns pay pr fm rec =>
      (purchaseMultiRoyalListings d w tx ns pay pr fm rec).map Prod.fst
  | .purchase d n pay pr fm => (purchaseListing d w n pay pr fm).map Prod.fst
  | .multiPurchase d ns pay pr fm => (multiPurchaseListing d w ns pay pr fm).map Prod.fst
  | .cancel n => cancelListing w n
  | .cancelRoyal n => cancelRoyalListing w n
  | .changePrice n p => changePrice w n p
  | .addPermission n p => addBuyerPermission w n p
  | .revokePermission n p => revokeMarketPermission w n p
  | .clear holds tok => cleared holds w tok
  | .multiClear holds tok => multiCleared holds w tok

/-- The listing/escrow invariant of the specification, both directions: a
listing exists for a key exactly when that item sits in the escrow vault. -/
def EscrowInv (t : Trader) : Prop :=
  (∀ p ∈ t.listings, p.1.2 ∈ glook t.nftVaults p.1.1) ∧
  (∀ v ∈ t.nftVaults, ∀ i ∈ v.2, (alookup t.listings (v.1, i)).isSome)

instance (t : Trader) : Decidable (EscrowInv t) := by
  unfold EscrowInv; infer_instance

/-- The forward half of the escrow invariant: every listed item sits in the
escrow vault. -/
def EscrowInvFwd (t : Trader) : Prop :=
  ∀ p ∈ t.listings, p.1.2 ∈ glook t.nftVaults p.1.1

/-- Listing keys are not duplicated (true of `KeyValueStore` contents). -/
def ListingsWF (t : Trader) : Prop := (t.listings.map Prod.fst).Nodup

/-- A bulk royalty purchase is collection-coherent when every requested id
belongs to the first item's collection (the source always takes the whole
batch out of the first item's collection vault). -/
def OpCoherent : Op → Prop
  | .purchaseMultiRoyal _ _ nfgids _ _ _ _ =>
      ∀ g ∈ nfgids, g.1 = (nfgids.headD (0, 0)).1
  | _ => True

/-! ## FeeRouter: bulk-order grouping (`generic_marketplace.rs`,
`purchase_multi_royal_listing`). -/

/-- A single order handed to the router: destination account, item, price. -/
abbrev Order := AccountAddr × Nfgid × Nat

/-- Append an order to its account's group, keeping first-occurrence group
order and input order inside each group. -/
def insertOrder (acc : List (AccountAddr × List (Nfgid × Nat)))
    (a : AccountAddr) (x : Nfgid × Nat) : List (AccountAddr × List (Nfgid × Nat)) :=
  match acc with
  | [] => [(a, [x])]
  | (b, xs) :: rest =>
      if a = b then (b, xs ++ [x]) :: rest else (b, xs) :: insertOrder rest a x

/-- Group a bulk order by destination account. -/
def groupByAccount (orders : List Order) : List (AccountAddr × List (Nfgid × Nat)) :=
  orders.foldl (fun acc o => insertOrder acc o.1 o.2) []

/-- Which escrow-account entry point a routed call targets. -/
inductive Entry where
  | singleEntry
  | multiEntry
  deriving DecidableEq, Repr

/-- One downstream call issued by the router. -/
structure RouterCall where
  entry : Entry
  account : AccountAddr
  items : List Nfgid
  payment : Nat
  deriving DecidableEq, Repr

/-- The call-construction loop of the router's `purchase_multi_royal_listing`:
one call per group; a single-order group is passed as a one-element batch to
`purchase_multi_royal_listings` (the call to the single-item entry point is
commented out in the source), a larger group is passed whole with the
payments summed. -/
def routeBulk (orders : List Order) : List RouterCall :=
  (groupByAccount orders).map (fun ag =>
    if ag.2.length = 1 then
      { entry := .multiEntry, account := ag.1,
        items := ag.2.map Prod.fst, payment := ((ag.2.headD ((0, 0), 0)).2) }
    else
      { entry := .multiEntry, account := ag.1,
        items := ag.2.map Prod.fst, payment := (ag.2.map Prod.snd).sum })

/-! ## Concrete fixtures used to evaluate the model on sample inputs. -/

/-- A plain configuration: 10% royalty, maximum 100%, no restrictions. -/
def baseCfg : RoyaltyConfig := {
  restrictedMovement := true
  royaltyPercent := 10 ^ 17
  maximumRoyaltyPercent := ONE
  limitCurrencies := false
  permittedCurrencies := []
  minimumRoyalties := false
  minimumRoyaltyAmounts := []
  limitDapps := false
  permissionedDapps := []
  limitBuyers := false
  permissionedBuyers := []
  limitPrivateTrade := false
  royaltyConfigurationLocked := false
  honoured := false }

def baseRoyalty : RoyaltyState :=
  { config := baseCfg, nftAddress := 1, royaltyVaults := [] }

/-- Every currency at full 18-decimal divisibility (step of one atto-unit). -/
def atto : ResourceAddr → Nat := fun _ => 1

def emptyTrader : Trader := {
  listings := []
  nftVaults := []
  transactions := []
  latestTransaction := none
  latestBulkTransaction := none
  transientTokens := 1
  transientTokenAddress := 77
  accountComponent := 3
  sellerRevenue := [] }

def w0 : World := { trader := emptyTrader, royalty := baseRoyalty, nftRule := .restricted }

/-- The specification's purchase scenario: item (1,5) listed at 100 units of
currency 9, purchasable through permission badge 4. -/
def scenarioListing : Listing := {
  secondarySellerPermissions := [4]
  currency := 9
  price := 100 * 10 ^ 18
  nfgid := (1, 5)
  outpostAccount := 3 }

def wListed : World :=
  { w0 with trader := { emptyTrader with
      listings := [((1, 5), scenarioListing)]
      nftVaults := [(1, [5])] } }

/-- The royalty component right after collecting a 10-unit royalty in
currency 9. -/
def rvAfterSale : RoyaltyState :=
  { baseRoyalty with royaltyVaults := [(9, 10 * 10 ^ 18)] }

/-- An account with an outstanding single-item `PendingTransfer` for item (1,5)
destined for account 9 (the state right after a royalty purchase). -/
def wPending : World :=
  { w0 with
    trader := { emptyTrader with
      latestTransaction := some (1, 5, 9)
      transientTokens := 0 }
    nftRule := .allowAll }

/-- An account with an outstanding bulk `PendingTransfer` for items (1,5) and
(1,6) destined for account 9. -/
def wBulkPending : World :=
  { w0 with
    trader := { emptyTrader with
      latestBulkTransaction := some (9, [(1, 5), (1, 6)])
      transientTokens := 0 }
    nftRule := .allowAll }

/-- A ledger on which every account holds everything. -/
def holdsAll : AccountAddr → ResourceAddr → LocalId → Bool := fun _ _ _ => true

/-- A ledger on which no account holds anything. -/
def holdsNone : AccountAddr → ResourceAddr → LocalId → Bool := fun _ _ _ => false

/-- The state after a successful `cleared` call on `wPending`: the transient
token is back in its vault and the deposit rule is restored — but the
`PendingTransfer` record survives. -/
def wPendingCleared : World :=
  { wPending with
    trader := { wPending.trader with transientTokens := 1 }
    nftRule := .restricted }

/-- The state after a successful `multi_cleared` call on `wBulkPending` with a
valid one-token bucket. -/
def wBulkCleared : World :=
  { wBulkPending with
    trader := { wBulkPending.trader with transientTokens := 1 }
    nftRule := .restricted }

/-- The state after a successful `multi_cleared` call on `wBulkPending` with an
empty bucket: nothing was returned to the transient vault. -/
def wBulkClearedEmpty : World := { wBulkPending with nftRule := .restricted }

/-- The state after the scenario purchase on `wListed`: item sold to account 9,
88 units delivered to the seller, 10 units in the royalty vault, transient
token handed out and deposit rule relaxed. -/
def wSold : World :=
  { trader := { emptyTrader with
      nftVaults := [(1, [])]
      latestTransaction := some (1, 5, 9)
      transientTokens := 0
      sellerRevenue := [(9, 88 * 10 ^ 18)] }
    royalty := rvAfterSale
    nftRule := .allowAll }

/-- An account state in which item (1,5) is listed and transaction hash 42 is
recorded in the replay guard (the state right after `royal_list` ran for this
listing inside transaction 42). -/
def wReplay : World :=
  { w0 with trader := { emptyTrader with
      listings := [((1, 5), scenarioListing)]
      nftVaults := [(1, [5])]
      transactions := [42] } }

/-- The result of `royal_list` on the fresh account inside transaction 42,
listing item (2,7) at price 5 in currency 9. -/
def wAfterRoyalList : World :=
  { w0 with trader := { emptyTrader with
      transactions := [42]
      listings := [((2, 7),
        { secondarySellerPermissions := [4], currency := 9, price := 5,
          nfgid := (2, 7), outpostAccount := 3 })]
      nftVaults := [(2, [7])] } }

/-- A sample bulk order: two items from account 1, one from account 2. -/
def sampleOrders : List Order := [(1, (1, 1), 10), (1, (1, 2), 20), (2, (1, 3), 5)]

/-- The call the router produces for account 1's group in `sampleOrders`. -/
def sampleCall : RouterCall :=
  { entry := .multiEntry, account := 1, items := [(1, 1), (1, 2)], payment := 30 }

/-- The configuration produced by `start_royalty_nft` with rate 100% and
maximum 200%: both creation assertions pass, yet `max_rate ≤ 1` fails. -/
def cfgOverMax : RoyaltyConfig := {
  restrictedMovement := true
  royaltyPercent := ONE
  maximumRoyaltyPercent := 2 * ONE
  limitCurrencies := false
  permittedCurrencies := []
  minimumRoyalties := false
  minimumRoyaltyAmounts := []
  limitDapps := false
  permissionedDapps := []
  limitBuyers := false
  permissionedBuyers := []
  limitPrivateTrade := false
  royaltyConfigurationLocked := false
  honoured := false }

instance (t : Trader) : Decidable (EscrowInvFwd t) := by
  unfold EscrowInvFwd; infer_instance

instance (t : Trader) : Decidable (ListingsWF t) := by
  unfold ListingsWF; infer_instance

/-- `wListed` after `change_price` moved item (1,5) to price 7. -/
def wPriced : World :=
  { wListed with trader := { wListed.trader with
      listings := ainsert wListed.trader.listings (1, 5)
        { scenarioListing with price := 7 } } }

/-! ## Helper lemmas about association lists and vault bookkeeping. -/

theorem alookup_ainsert_self {α β : Type} [DecidableEq α]
    (l : List (α × β)) (k : α) (v : β) : alookup (ainsert l k v) k = some v := by
  induction l with
  | nil => simp [ainsert, alookup]
  | cons hd t ih =>
    obtain ⟨a, b⟩ := hd
    by_cases hk : k = a
    · simp [ainsert, hk, alookup]
    · simp [ainsert, hk, alookup, ih]

theorem alookup_ainsert_ne {α β : Type} [DecidableEq α]
    (l : List (α × β)) (k a : α) (v : β) (h : a ≠ k) :
    alookup (ainsert l k v) a = alookup l a := by
  induction l with
  | nil => simp [ainsert, alookup, h]
  | cons hd t ih =>
    obtain ⟨c, b⟩ := hd
    by_cases hk : k = c
    · subst hk
      simp [ainsert, alookup, h]
    · by_cases ha : a = c
      · simp [ainsert, hk, alookup, ha]
      · simp [ainsert, hk, alookup, ha, ih]

theorem mem_ainsert {α β : Type} [DecidableEq α]
    {l : List (α × β)} {k : α} {v : β} {p : α × β} (h : p ∈ ainsert l k v) :
    p = (k, v) ∨ p ∈ l := by
  induction l with
  | nil => simpa [ainsert] using h
  | cons hd t ih =>
    obtain ⟨c, b⟩ := hd
    by_cases hk : k = c
    · simp [ainsert, hk] at h
      rcases h with h | h
      · exact Or.inl (by simp [h, hk])
      · exact Or.inr (by simp [h])
    · simp [ainsert, hk] at h
      rcases h with h | h
      · exact Or.inr (by simp [h])
      · rcases ih h with h' | h'
        · exact Or.inl h'
        · exact Or.inr (by simp [h'])

theorem mem_aremove {α β : Type} [DecidableEq α]
    {l : List (α × β)} {k : α} {p : α × β} (h : p ∈ aremove l k) : p ∈ l := by
  induction l with
  | nil => simpa [aremove] using h
  | cons hd t ih =>
    obtain ⟨c, b⟩ := hd
    by_cases hk : k = c
    · simp [aremove, hk] at h
      exact List.mem_cons_of_mem _ h
    · simp [aremove, hk] at h
      rcases h with h | h
      · simp [h]
      · exact List.mem_cons_of_mem _ (ih h)

theorem alookup_isSome_iff {α β : Type} [DecidableEq α]
    (l : List (α × β)) (a : α) : (alookup l a).isSome ↔ a ∈ l.map Prod.fst := by
  induction l with
  | nil => simp [alookup]
  | cons hd t ih =>
    obtain ⟨c, b⟩ := hd
    by_cases ha : a = c
    · simp [alookup, ha]
    · simp [alookup, ha, ih]

theorem alookup_eq_none_of_not_mem {α β : Type} [DecidableEq α]
    {l : List (α × β)} {a : α} (h : a ∉ l.map Prod.fst) : alookup l a = none := by
  cases hl : alookup l a with
  | none => rfl
  | some b =>
    exact absurd ((alookup_isSome_iff l a).mp (by simp [hl])) h

theorem alookup_mem {α β : Type} [DecidableEq α]
    {l : List (α × β)} {a : α} {b : β} (h : alookup l a = some b) : (a, b) ∈ l := by
  induction l with
  | nil => simp [alookup] at h
  | cons hd t ih =>
    obtain ⟨c, d⟩ := hd
    by_cases ha : a = c
    · simp [alookup, ha] at h
      simp [ha, h]
    · simp [alookup, ha] at h
      exact List.mem_cons_of_mem _ (ih h)

theorem alookup_of_mem_nodup {α β : Type} [DecidableEq α]
    {l : List (α × β)} {a : α} {b : β} (hn : (l.map Prod.fst).Nodup)
    (h : (a, b) ∈ l) : alookup l a = some b := by
  induction l with
  | nil => simp at h
  | cons hd t ih =>
    obtain ⟨c, d⟩ := hd
    simp only [List.map_cons, List.nodup_cons] at hn
    rcases List.mem_cons.mp h with h' | h'
    · obtain ⟨h1, h2⟩ : a = c ∧ b = d := by simpa using h'
      subst h1; subst h2
      simp [alookup]
    · have hac : a ≠ c := by
        rintro rfl
        exact hn.1 (by simpa using List.mem_map_of_mem Prod.fst h')
      simp [alookup, hac, ih hn.2 h']

theorem mem_map_fst_ainsert {α β : Type} [DecidableEq α]
    (l : List (α × β)) (k a : α) (v : β) :
    a ∈ (ainsert l k v).map Prod.fst ↔ a = k ∨ a ∈ l.map Prod.fst := by
  induction l with
  | nil => simp [ainsert]
  | cons hd t ih =>
    obtain ⟨c, b⟩ := hd
    by_cases hk : k = c
    · subst hk
      by_cases ha : a = k <;> simp [ainsert, ha]
    · by_cases ha : a = c
      · simp [ainsert, hk, ha]
      · simp only [ainsert, if_neg hk, List.map_cons, List.mem_cons]
        simp [ha, ih]

theorem nodup_map_fst_ainsert {α β : Type} [DecidableEq α]
    {l : List (α × β)} (k : α) (v : β) (hn : (l.map Prod.fst).Nodup) :
    ((ainsert l k v).map Prod.fst).Nodup := by
  induction l with
  | nil => simp [ainsert]
  | cons hd t ih =>
    obtain ⟨c, b⟩ := hd
    simp only [List.map_cons, List.nodup_cons] at hn
    by_cases hk : k = c
    · subst hk
      simpa [ainsert] using hn
    · simp only [ainsert, if_neg hk, List.map_cons, List.nodup_cons]
      refine ⟨?_, ih hn.2⟩
      intro hc
      rcases (mem_map_fst_ainsert t k c v).mp hc with h' | h'
      · exact hk h'.symm
      · exact hn.1 h'

theorem aremove_sublist {α β : Type} [DecidableEq α]
    (l : List (α × β)) (k : α) : (aremove l k).Sublist l := by
  induction l with
  | nil => simp [aremove]
  | cons hd t ih =>
    obtain ⟨c, b⟩ := hd
    by_cases hk : k = c
    · simp only [aremove, if_pos hk]
      exact (List.Sublist.refl t).cons (c, b)
    · simp only [aremove, if_neg hk]
      exact ih.cons₂ (c, b)

theorem map_fst_aremove_nodup {α β : Type} [DecidableEq α]
    {l : List (α × β)} (k : α) (hn : (l.map Prod.fst).Nodup) :
    ((aremove l k).map Prod.fst).Nodup :=
  List.Nodup.sublist (List.Sublist.map Prod.fst (aremove_sublist l k)) hn

theorem alookup_aremove_self {α β : Type} [DecidableEq α]
    {l : List (α × β)} {k : α} (hn : (l.map Prod.fst).Nodup) :
    alookup (aremove l k) k = none := by
  induction l with
  | nil => simp [aremove, alookup]
  | cons hd t ih =>
    obtain ⟨c, b⟩ := hd
    simp at hn
    by_cases hk : k = c
    · subst hk
      exact alookup_eq_none_of_not_mem (by simpa [aremove] using hn.1)
    · simp [aremove, hk, alookup, ih hn.2]

theorem alookup_aremove_ne {α β : Type} [DecidableEq α]
    (l : List (α × β)) (k a : α) (h : a ≠ k) :
    alookup (aremove l k) a = alookup l a := by
  induction l with
  | nil => simp [aremove]
  | cons hd t ih =>
    obtain ⟨c, b⟩ := hd
    by_cases hk : k = c
    · subst hk
      simp [aremove, alookup, h]
    · by_cases ha : a = c
      · simp [aremove, hk, alookup, ha]
      · simp [aremove, hk, alookup, ha, ih]

theorem glook_vaultPut_self (v : List (ResourceAddr × List LocalId))
    (r : ResourceAddr) (ids : List LocalId) :
    glook (vaultPut v r ids) r = glook v r ++ ids := by
  simp [vaultPut, glook, alookup_ainsert_self]

theorem glook_vaultPut_ne (v : List (ResourceAddr × List LocalId))
    (r r' : ResourceAddr) (ids : List LocalId) (h : r' ≠ r) :
    glook (vaultPut v r ids) r' = glook v r' := by
  simp [vaultPut, glook, alookup_ainsert_ne _ _ _ _ h]

/-! ## Claim C7: bounds on the royalty rate and its maximum. -/

/-- Claim C7 (counterexample): the claim states that every reachable
`RoyaltyPolicy` state satisfies `0 ≤ rate ≤ max_rate ≤ 1`.  Component creation
with rate 1 and maximum 2 passes both creation assertions (`rate ≤ 1` and
`rate ≤ max_rate`) and yields a reachable state whose `max_rate` is 2 > 1, so
the claimed invariant fails. -/
theorem royalty_rate_bounds_counterexample :
    startRoyaltyNft true false ONE (2 * ONE) = .ok cfgOverMax ∧
    ReachCfg cfgOverMax ∧
    ¬(0 ≤ cfgOverMax.royaltyPercent ∧
      cfgOverMax.royaltyPercent ≤ cfgOverMax.maximumRoyaltyPercent ∧
      cfgOverMax.maximumRoyaltyPercent ≤ ONE) := by
  refine ⟨by decide, ReachCfg.create true false ONE (2 * ONE) cfgOverMax (by decide), by decide⟩

/-- Claim C7 (amended): for every `RoyaltyPolicy` state reachable through
component creation, `change_royalty_percentage_fee`,
`lower_maximum_royalty_percentage` and `lock_royalty_configuration`,
`rate ≤ max_rate` holds; creation additionally enforces `rate ≤ 1`.  Neither
`max_rate ≤ 1` nor `0 ≤ rate` is enforced anywhere, and
`lower_maximum_royalty_percentage` may in fact raise the maximum, so the rate
itself can later exceed 1. -/
theorem royalty_rate_le_max :
    (∀ c : RoyaltyConfig, ReachCfg c →
      c.royaltyPercent ≤ c.maximumRoyaltyPercent) ∧
    (∀ (re ho : Bool) (rp mrp : Int) (c : RoyaltyConfig),
      startRoyaltyNft re ho rp mrp = .ok c → c.royaltyPercent ≤ ONE) := by
  constructor
  · intro c h
    induction h with
    | create re ho rp mrp c hc =>
      unfold startRoyaltyNft at hc
      split at hc
      · split at hc
        · rename_i h2
          cases hc
          simpa using h2
        · cases hc
      · cases hc
    | change c x c' hr hc ih =>
      unfold changeRoyaltyPercentageFee at hc
      split at hc
      · cases hc
      · split at hc
        · rename_i h2
          cases hc
          simpa using h2
        · cases hc
    | lower c x c' hr hc ih =>
      unfold lowerMaximumRoyaltyPercentage at hc
      split at hc
      · rename_i h2
        cases hc
        simpa using h2
      · cases hc
    | lock c hr ih =>
      simpa [lockRoyaltyConfiguration] using ih
  · intro re ho rp mrp c hc
    unfold startRoyaltyNft at hc
    split at hc
    · split at hc
      · rename_i h1 h2
        cases hc
        simpa using h1
      · cases hc
    · cases hc

/-- Claim C7 (amended, witness): the invariant evaluated on the concrete
reachable state obtained by creating a policy at rate 0.1 with maximum 1 and
then changing the rate to 0.2. -/
theorem royalty_rate_le_max_witness :
    ({ baseCfg with royaltyPercent := 2 * 10 ^ 17 } : RoyaltyConfig).royaltyPercent ≤
      ({ baseCfg with royaltyPercent := 2 * 10 ^ 17 } : RoyaltyConfig).maximumRoyaltyPercent :=
  royalty_rate_le_max.1 _
    (ReachCfg.change baseCfg (2 * 10 ^ 17) _
      (ReachCfg.create true false (10 ^ 17) ONE baseCfg (by decide))
      (by decide))

/-! ## Claim C8: behaviour after `lock_royalty_configuration`. -/

/-- Claim C8: after `lock_royalty_configuration`, every attempt to change the
royalty rate through `change_royalty_percentage_fee` fails on the locked-latch
assertion, while `lower_maximum_royalty_percentage` (which never consults the
latch) still succeeds for any new maximum not below the current rate. -/
theorem locked_config_change_fails_lower_succeeds :
    ∀ (c : RoyaltyConfig) (x newMax : Int),
      changeRoyaltyPercentageFee (lockRoyaltyConfiguration c) x = .error .configLocked ∧
      ((lockRoyaltyConfiguration c).royaltyPercent ≤ newMax →
        lowerMaximumRoyaltyPercentage (lockRoyaltyConfiguration c) newMax =
          .ok { lockRoyaltyConfiguration c with maximumRoyaltyPercent := newMax }) := by
  intro c x newMax
  constructor
  · simp [changeRoyaltyPercentageFee, lockRoyaltyConfiguration]
  · intro h
    simp [lowerMaximumRoyaltyPercentage, lockRoyaltyConfiguration, h]
    simp [lockRoyaltyConfiguration] at h
    simp [h]

/-- Claim C8 (witness): the locked scenario evaluated on the base
configuration: raising the rate to 2 fails, lowering the maximum to 0.1
succeeds. -/
theorem locked_config_witness :
    changeRoyaltyPercentageFee (lockRoyaltyConfiguration baseCfg) (2 * ONE) =
      .error .configLocked ∧
    lowerMaximumRoyaltyPercentage (lockRoyaltyConfiguration baseCfg) (10 ^ 17) =
      .ok { lockRoyaltyConfiguration baseCfg with maximumRoyaltyPercent := 10 ^ 17 } :=
  ⟨(locked_config_change_fails_lower_succeeds baseCfg (2 * ONE) (10 ^ 17)).1,
   (locked_config_change_fails_lower_succeeds baseCfg (2 * ONE) (10 ^ 17)).2 (by decide)⟩

/-! ## Claim C1: conservation of value in `pay_royalty`. -/

theorem tdiv_coe (m n : Nat) : Int.tdiv (m : Int) (n : Int) = ((m / n : Nat) : Int) := rfl

theorem roundStep_decMul_nonneg (p step : Nat) (r : Int) (hr : 0 ≤ r) :
    roundStep (decMul (p : Int) r) step = ((p * r.toNat / 10 ^ 18 / step * step : Nat) : Int) := by
  have hrr : ((r.toNat : Nat) : Int) = r := Int.toNat_of_nonneg hr
  unfold roundStep decMul
  rw [← hrr]
  rw [show ((p : Int) * ((r.toNat : Nat) : Int)) = ((p * r.toNat : Nat) : Int) by push_cast; ring]
  rw [show (ONE : Int) = ((10 ^ 18 : Nat) : Int) by norm_num [ONE]]
  rw [tdiv_coe, tdiv_coe]
  push_cast
  simp only [Int.toNat_natCast]

/-- Characterization of a successful `payRoyaltyCore` run: the rounded take
was within the payment, the vault for the payment currency was credited with
exactly the take, and the remainder is the payment minus the take. -/
theorem payRoyaltyCore_ok {dstep : ResourceAddr → Nat} {st : RoyaltyState}
    {currency : ResourceAddr} {p : Nat} {st' : RoyaltyState} {rem : Nat}
    (h : payRoyaltyCore dstep st currency p = .ok (st', rem)) :
    0 ≤ roundStep (decMul (p : Int) st.config.royaltyPercent) (dstep currency) ∧
    roundStep (decMul (p : Int) st.config.royaltyPercent) (dstep currency) ≤ (p : Int) ∧
    st' = { st with royaltyVaults := ainsert st.royaltyVaults currency
                      ((alookup st.royaltyVaults currency).getD 0 +
                        (roundStep (decMul (p : Int) st.config.royaltyPercent)
                          (dstep currency)).toNat) } ∧
    rem = p - (roundStep (decMul (p : Int) st.config.royaltyPercent) (dstep currency)).toNat := by
  by_cases hg : 0 ≤ roundStep (decMul (p : Int) st.config.royaltyPercent) (dstep currency) ∧
      roundStep (decMul (p : Int) st.config.royaltyPercent) (dstep currency) ≤ (p : Int)
  · refine ⟨hg.1, hg.2, ?_⟩
    by_cases hm : st.config.limitCurrencies ∧ st.config.minimumRoyalties
    · cases ha : alookup st.config.minimumRoyaltyAmounts currency with
      | none => simp [payRoyaltyCore, hg.1, hg.2, hm.1, hm.2, ha] at h
      | some m =>
        by_cases hmin : m ≤ roundStep (decMul (p : Int) st.config.royaltyPercent)
            (dstep currency)
        · simp only [payRoyaltyCore, hg.1, hg.2, and_self, if_true, hm.1, hm.2, ha,
            if_pos hmin, Except.ok.injEq, Prod.mk.injEq] at h
          exact ⟨h.1.symm, h.2.symm⟩
        · simp [payRoyaltyCore, hg.1, hg.2, hm.1, hm.2, ha, hmin] at h
    · simp only [payRoyaltyCore, hg.1, hg.2, and_self, if_true, hm, if_false,
        Except.ok.injEq, Prod.mk.injEq] at h
      exact ⟨h.1.symm, h.2.symm⟩
  · simp [payRoyaltyCore, hg] at h

/-- A successful `pay_royalty_basic` is a successful `payRoyaltyCore` run
(the extra checks touch neither the state nor the remainder). -/
theorem payRoyaltyBasic_ok {dstep : ResourceAddr → Nat} {st : RoyaltyState}
    {nft currency : ResourceAddr} {p : Nat} {buyer : ResourceAddr}
    {st' : RoyaltyState} {rem : Nat}
    (h : payRoyaltyBasic dstep st nft (currency, p) buyer = .ok (st', rem)) :
    payRoyaltyCore dstep st currency p = .ok (st', rem) := by
  by_cases h1 : nft = st.nftAddress
  · by_cases h2 : st.config.limitBuyers ∧ buyer ∉ st.config.permissionedBuyers
    · simp [payRoyaltyBasic, h1, h2] at h
    · by_cases h3 : st.config.limitCurrencies ∧ currency ∉ st.config.permittedCurrencies
      · simp [payRoyaltyBasic, h1, h2, h3] at h
      · simpa [payRoyaltyBasic, h1, h2, h3] using h
  · simp [payRoyaltyBasic, h1] at h

/-- A successful `pay_royalty` is a successful `payRoyaltyCore` run. -/
theorem payRoyalty_ok {dstep : ResourceAddr → Nat} {st : RoyaltyState}
    {nft currency : ResourceAddr} {ids : List LocalId} {p : Nat}
    {buyer : ResourceAddr} {account : AccountAddr} {st' : RoyaltyState} {rem : Nat}
    (h : payRoyalty dstep st nft ids (currency, p) buyer account = .ok (st', rem)) :
    payRoyaltyCore dstep st currency p = .ok (st', rem) := by
  by_cases h1 : nft = st.nftAddress
  · by_cases h2 : st.config.limitBuyers ∧ buyer ∉ st.config.permissionedBuyers
    · simp [payRoyalty, h1, h2] at h
    · by_cases h3 : st.config.limitCurrencies ∧ currency ∉ st.config.permittedCurrencies
      · simp [payRoyalty, h1, h2, h3] at h
      · simpa [payRoyalty, h1, h2, h3] using h
  · simp [payRoyalty, h1] at h

/-- The rounded royalty take never exceeds the exact product of payment and
rate: `take * 10^18 ≤ p * rate`. -/
theorem royalty_take_le_product (p step : Nat) (r : Int) (hr : 0 ≤ r)
    (hpos : 0 ≤ roundStep (decMul (p : Int) r) step) :
    ((roundStep (decMul (p : Int) r) step).toNat : Int) * ONE ≤ (p : Int) * r := by
  have htake : roundStep (decMul (p : Int) r) step =
      ((p * r.toNat / 10 ^ 18 / step * step : Nat) : Int) :=
    roundStep_decMul_nonneg p step r hr
  rw [htake]
  rw [Int.toNat_natCast]
  rw [show (ONE : Int) = ((10 ^ 18 : Nat) : Int) by norm_num [ONE]]
  rw [show r = ((r.toNat : Nat) : Int) from (Int.toNat_of_nonneg hr).symm]
  have hnat : p * r.toNat / 10 ^ 18 / step * step * 10 ^ 18 ≤ p * r.toNat := by
    calc p * r.toNat / 10 ^ 18 / step * step * 10 ^ 18
        ≤ p * r.toNat / 10 ^ 18 * 10 ^ 18 :=
          Nat.mul_le_mul_right _ (Nat.div_mul_le_self _ _)
      _ ≤ p * r.toNat := Nat.div_mul_le_self _ _
  exact_mod_cast hnat

/-- Claim C1: whenever `pay_royalty` succeeds (in particular the buyer and
currency checks passed), the amount credited to the royalty vault for the
payment currency is exactly the payment amount times the royalty rate rounded
toward zero at the currency divisibility — hence at most the true product —
and the returned remainder plus the royalty taken equals the original payment
amount. -/
theorem pay_royalty_conservation :
    ∀ (dstep : ResourceAddr → Nat) (st st' : RoyaltyState) (nft : ResourceAddr)
      (ids : List LocalId) (currency : ResourceAddr) (p : Nat)
      (buyer : ResourceAddr) (account : AccountAddr) (remainder : Nat),
      payRoyalty dstep st nft ids (currency, p) buyer account = .ok (st', remainder) →
      0 ≤ st.config.royaltyPercent →
      let take := (roundStep (decMul (p : Int) st.config.royaltyPercent) (dstep currency)).toNat
      vaultBal st' currency = vaultBal st currency + take ∧
      remainder + take = p ∧
      (take : Int) * ONE ≤ (p : Int) * st.config.royaltyPercent := by
  intro dstep st st' nft ids currency p buyer account remainder h hrate
  obtain ⟨hpos, hle, hst, hrem⟩ := payRoyaltyCore_ok (payRoyalty_ok h)
  subst hst
  subst hrem
  refine ⟨?_, ?_, ?_⟩
  · simp [vaultBal, alookup_ainsert_self]
  · exact Nat.sub_add_cancel (Int.toNat_le.mpr hle)
  · exact royalty_take_le_product p (dstep currency) st.config.royaltyPercent hrate hpos

/-- Claim C1 (witness): the conservation equations evaluated on a concrete
call: 10% rate, payment of 100 units in currency 9, full divisibility. -/
theorem pay_royalty_conservation_witness :
    vaultBal rvAfterSale 9 = vaultBal baseRoyalty 9 +
      (roundStep (decMul ((100 * 10 ^ 18 : Nat) : Int) baseRoyalty.config.royaltyPercent)
        (atto 9)).toNat ∧
    90 * 10 ^ 18 +
      (roundStep (decMul ((100 * 10 ^ 18 : Nat) : Int) baseRoyalty.config.royaltyPercent)
        (atto 9)).toNat = 100 * 10 ^ 18 ∧
    (((roundStep (decMul ((100 * 10 ^ 18 : Nat) : Int) baseRoyalty.config.royaltyPercent)
        (atto 9)).toNat : Nat) : Int) * ONE ≤
      ((100 * 10 ^ 18 : Nat) : Int) * baseRoyalty.config.royaltyPercent :=
  pay_royalty_conservation atto baseRoyalty rvAfterSale 1 [5] 9 (100 * 10 ^ 18) 4 9
    (90 * 10 ^ 18) (by decide) (by decide)

/-! ## Claim C5: failure and success conditions of `cleared`. -/

/-- Claim C5: `cleared` aborts whenever no `PendingTransfer` is outstanding and
whenever the recorded recipient does not hold the recorded item; and a
successful run requires a one-token bucket of the account's transient class, an
outstanding `PendingTransfer` and the recorded recipient holding the item. -/
theorem cleared_conditions :
    ∀ (holds : AccountAddr → ResourceAddr → LocalId → Bool) (w : World) (tok : FBucket),
      (w.trader.latestTransaction = none → (cleared holds w tok).toOption = none) ∧
      (∀ r l a, w.trader.latestTransaction = some (r, l, a) → holds a r l = false →
        (cleared holds w tok).toOption = none) ∧
      (∀ w', cleared holds w tok = .ok w' →
        tok.2 = 1 ∧ tok.1 = w.trader.transientTokenAddress ∧
        w.trader.latestTransaction.isSome = true ∧
        (∀ r l a, w.trader.latestTransaction = some (r, l, a) → holds a r l = true)) := by
  intro holds w tok
  refine ⟨?_, ?_, ?_⟩
  · intro hnone
    by_cases h1 : tok.2 = 1
    · by_cases h2 : tok.1 = w.trader.transientTokenAddress
      · simp [cleared, h1, h2, hnone, Except.toOption]
      · simp [cleared, h1, h2, Except.toOption]
    · simp [cleared, h1, Except.toOption]
  · intro r l a hsome hfalse
    by_cases h1 : tok.2 = 1
    · by_cases h2 : tok.1 = w.trader.transientTokenAddress
      · simp [cleared, h1, h2, hsome, hfalse, Except.toOption]
      · simp [cleared, h1, h2, Except.toOption]
    · simp [cleared, h1, Except.toOption]
  · intro w' hok
    by_cases h1 : tok.2 = 1
    · by_cases h2 : tok.1 = w.trader.transientTokenAddress
      · cases hlt : w.trader.latestTransaction with
        | none => simp [cleared, h1, h2, hlt] at hok
        | some rla =>
          obtain ⟨r, l, a⟩ := rla
          by_cases hh : holds a r l
          · refine ⟨h1, h2, by simp [hlt], ?_⟩
            intro r' l' a' hsome
            obtain ⟨hr, hl, ha⟩ : r = r' ∧ l = l' ∧ a = a' := by simpa using hsome
            subst hr; subst hl; subst ha
            exact hh
          · simp [cleared, h1, h2, hlt, hh] at hok
      · simp [cleared, h1, h2] at hok
    · simp [cleared, h1] at hok

/-- Claim C5 (witness): the three conditions evaluated concretely — `cleared`
on a fresh account fails, `cleared` with a recipient that does not hold the
item fails, and a successful `cleared` run certifies that the recipient holds
the recorded item. -/
theorem cleared_conditions_witness :
    (cleared holdsAll w0 (77, 1)).toOption = none ∧
    (cleared holdsNone wPending (77, 1)).toOption = none ∧
    holdsAll 9 1 5 = true :=
  ⟨(cleared_conditions holdsAll w0 (77, 1)).1 (by decide),
   (cleared_conditions holdsNone wPending (77, 1)).2.1 1 5 9 (by decide) (by decide),
   ((cleared_conditions holdsAll wPending (77, 1)).2.2 wPendingCleared
      (by decide)).2.2.2 1 5 9 (by decide)⟩

/-! ## Claim C3: the `PendingTransfer` record after a successful clearing. -/

/-- Claim C3 (code-bug evidence): neither `cleared` nor `multi_cleared` ever
resets `latest_transaction`/`latest_bulk_transaction` to `None`, although the
specification's step 6 says the `PendingTransfer` is cleared.  Evaluated on
concrete states: after a successful `cleared` (resp. `multi_cleared`) the
record still holds the old transfer, and an immediate second call passes the
`No transaction to clear` assertion and succeeds instead of failing. -/
theorem cleared_leaves_pending_transfer :
    cleared holdsAll wPending (77, 1) = .ok wPendingCleared ∧
    wPendingCleared.trader.latestTransaction = some (1, 5, 9) ∧
    (cleared holdsAll wPendingCleared (77, 1)).toOption.isSome = true ∧
    multiCleared holdsAll wBulkPending (77, 1) = .ok wBulkCleared ∧
    wBulkCleared.trader.latestBulkTransaction = some (9, [(1, 5), (1, 6)]) ∧
    (multiCleared holdsAll wBulkCleared (77, 1)).toOption.isSome = true := by
  refine ⟨by decide, by decide, by decide, by decide, by decide, by decide⟩

/-! ## Claim C10: `multi_cleared` never checks the bucket amount. -/

/-- Claim C10: the amount assertion of `multi_cleared` is commented out in the
source: for any outstanding bulk `PendingTransfer` whose recorded items the
recipient holds, a bucket of amount 0 of the transient resource clears the
account — the deposit rule is restored while the transient vault receives
nothing.  By contrast `cleared` aborts on any bucket whose amount is not 1. -/
theorem multi_cleared_ignores_amount :
    (∀ (holds : AccountAddr → ResourceAddr → LocalId → Bool) (w : World)
      (a : AccountAddr) (g0 : Nfgid) (gs' : List Nfgid),
      w.trader.latestBulkTransaction = some (a, g0 :: gs') →
      (∀ g ∈ g0 :: gs', holds a g0.1 g.2 = true) →
      multiCleared holds w (w.trader.transientTokenAddress, 0) =
        .ok { w with
          trader := { w.trader with transientTokens := w.trader.transientTokens }
          nftRule := .restricted }) ∧
    (∀ (holds : AccountAddr → ResourceAddr → LocalId → Bool) (w : World) (tok : FBucket),
      tok.2 ≠ 1 → (cleared holds w tok).toOption = none) := by
  constructor
  · intro holds w a g0 gs' hbulk hheld
    simp [multiCleared, hbulk, hheld]
    intro x y hxy
    exact hheld (x, y) (List.mem_cons_of_mem _ hxy)
  · intro holds w tok h1
    simp [cleared, h1, Except.toOption]

/-- Claim C10 (witness): a concrete bulk `PendingTransfer` cleared by an
amount-zero bucket, leaving the transient vault untouched, and a concrete
amount-zero `cleared` call that fails. -/
theorem multi_cleared_ignores_amount_witness :
    multiCleared holdsAll wBulkPending (77, 0) =
      .ok { wBulkPending with
        trader := { wBulkPending.trader with
          transientTokens := wBulkPending.trader.transientTokens }
        nftRule := .restricted } ∧
    (cleared holdsAll wPending (77, 0)).toOption = none :=
  ⟨multi_cleared_ignores_amount.1 holdsAll wBulkPending 9 (1, 5) [(1, 6)]
      (by decide) (by decide),
   multi_cleared_ignores_amount.2 holdsAll wPending (77, 0) (by decide)⟩

/-! ## Claim C4: same-transaction list-and-purchase replay protection. -/

/-- A successful `multiListCore` run does not change the replay guard. -/
theorem multiListCore_transactions {t t' : Trader} {pairs : List (Nfgid × Nat)}
    {currency : ResourceAddr} {perms : List ResourceAddr}
    {items : ResourceAddr × List LocalId}
    (h : multiListCore t pairs currency perms items = .ok t') :
    t'.transactions = t.transactions := by
  simp only [multiListCore] at h
  by_cases h1 : items.2 = []
  · rw [if_pos h1] at h
    exact Except.noConfusion h
  · rw [if_neg h1] at h
    by_cases h2 : ∀ gp ∈ pairs, gp.1.1 = items.1
    · rw [if_pos h2] at h
      by_cases h3 : ∀ gp ∈ pairs, 0 < gp.2
      · rw [if_pos h3] at h
        by_cases h4 : ∀ gp ∈ pairs, gp.1.2 ∈ items.2
        · rw [if_pos h4] at h
          injection h with h'
          rw [← h']
        · rw [if_neg h4] at h
          exact Except.noConfusion h
      · rw [if_neg h3] at h
        exact Except.noConfusion h
    · rw [if_neg h2] at h
      exact Except.noConfusion h

/-- Claim C4: `royal_list` and `royal_multi_list` record the current
transaction hash in the replay guard, and both royalty purchase entry points
fail with the replay error whenever the current transaction hash is already
recorded (stated under the preconditions that let the purchase reach the
replay check: listing(s) found, permission granted, payment matching). -/
theorem same_transaction_replay :
    (∀ (w w' : World) (tx : TxHash) (item : Nfgid) (price : Nat)
      (currency : ResourceAddr) (perms : List ResourceAddr),
      royalList w tx item price currency perms = .ok w' →
      tx ∈ w'.trader.transactions) ∧
    (∀ (w w' : World) (tx : TxHash) (pairs : List (Nfgid × Nat))
      (currency : ResourceAddr) (perms : List ResourceAddr)
      (items : ResourceAddr × List LocalId),
      royalMultiList w tx pairs currency perms items = .ok w' →
      tx ∈ w'.trader.transactions) ∧
    (∀ (dstep : ResourceAddr → Nat) (w : World) (tx : TxHash) (nfgid : Nfgid)
      (payment : FBucket) (pr : ResourceAddr) (fm : Option Int) (rec : AccountAddr)
      (L : Listing),
      alookup w.trader.listings nfgid = some L →
      pr ∈ L.secondarySellerPermissions →
      payment.2 = L.price → payment.1 = L.currency →
      tx ∈ w.trader.transactions →
      purchaseRoyalListing dstep w tx nfgid payment pr fm rec =
        .error .replayDetected) ∧
    (∀ (dstep : ResourceAddr → Nat) (w : World) (tx : TxHash) (g0 : Nfgid)
      (gs : List Nfgid) (payment : FBucket) (pr : ResourceAddr) (fm : Option Int)
      (rec : AccountAddr) (L0 : Listing) (ls' : List Listing),
      listingsOf w.trader.listings (g0 :: gs) = some (L0 :: ls') →
      (∀ L ∈ L0 :: ls', pr ∈ L.secondarySellerPermissions) →
      (∀ L ∈ L0 :: ls', L.currency = L0.currency) →
      payment.1 = L0.currency →
      payment.2 = ((L0 :: ls').map Listing.price).sum →
      tx ∈ w.trader.transactions →
      purchaseMultiRoyalListings dstep w tx (g0 :: gs) payment pr fm rec =
        .error .replayDetected) := by
  refine ⟨?_, ?_, ?_, ?_⟩
  · intro w w' tx item price currency perms h
    by_cases hp : price = 0
    · simp [royalList, hp] at h
    · simp only [royalList, if_neg hp, Except.ok.injEq] at h
      rw [← h]
      exact List.mem_cons_self _ _
  · intro w w' tx pairs currency perms items h
    unfold royalMultiList at h
    cases hcore : multiListCore
        { w.trader with transactions := tx :: w.trader.transactions }
        pairs currency perms items with
    | error e => rw [hcore] at h; cases h
    | ok t =>
      rw [hcore] at h
      simp only [Except.ok.injEq] at h
      have ht := multiListCore_transactions hcore
      rw [← h]
      simp only [ht]
      exact List.mem_cons_self _ _
  · intro dstep w tx nfgid payment pr fm rec L hL hperm hprice hcur htx
    simp [purchaseRoyalListing, hL, hperm, hprice.symm, hcur.symm, htx]
  · intro dstep w tx g0 gs payment pr fm rec L0 ls' hls hperm hcurAll hpc hpay htx
    have hp' : ∀ a ∈ ls', pr ∈ a.secondarySellerPermissions :=
      fun a ha => hperm a (List.mem_cons_of_mem _ ha)
    have hc' : ∀ a ∈ ls', a.currency = L0.currency :=
      fun a ha => hcurAll a (List.mem_cons_of_mem _ ha)
    simp [purchaseMultiRoyalListings, hls, hperm, hcurAll, hpc, hpay, htx, hp', hc']
    rw [if_pos hp', if_pos hc']

/-- Claim C4 (witness): concretely, `royal_list` inside transaction 42 records
hash 42, and purchasing the listed item inside transaction 42 fails with the
replay error. -/
theorem same_transaction_replay_witness :
    (42 : TxHash) ∈ wAfterRoyalList.trader.transactions ∧
    purchaseRoyalListing atto wReplay 42 (1, 5) (9, 100 * 10 ^ 18) 4 none 9 =
      .error .replayDetected :=
  ⟨same_transaction_replay.1 w0 wAfterRoyalList 42 (2, 7) 5 9 [4] (by decide),
   same_transaction_replay.2.2.1 atto wReplay 42 (1, 5) (9, 100 * 10 ^ 18) 4 none 9
     scenarioListing (by decide) (by decide) (by decide) (by decide) (by decide)⟩

/-! ## Claim C2: the marketplace-fee split of `purchase_royal_listing`. -/

/-- Characterization of a successful `purchase_royal_listing` run. -/
theorem purchaseRoyalListing_ok {dstep : ResourceAddr → Nat} {w : World}
    {tx : TxHash} {n : Nfgid} {c : ResourceAddr} {p : Nat} {pr : ResourceAddr}
    {fm : Option Int} {rec : AccountAddr} {w' : World} {out : PurchaseOut}
    (h : purchaseRoyalListing dstep w tx n (c, p) pr fm rec = .ok (w', out)) :
    ∃ (L : Listing) (ids : List LocalId) (roy : RoyaltyState)
      (remainder : Nat) (feeB : Option Nat) (rem2 : Nat),
      alookup w.trader.listings n = some L ∧
      pr ∈ L.secondarySellerPermissions ∧
      p = L.price ∧ c = L.currency ∧
      tx ∉ w.trader.transactions ∧
      alookup w.trader.nftVaults n.1 = some ids ∧
      n.2 ∈ ids ∧
      payRoyaltyBasic dstep w.royalty n.1 (c, p) pr = .ok (roy, remainder) ∧
      ((fm = none ∧ feeB = none ∧ rem2 = remainder) ∨
        (∃ rate, fm = some rate ∧
          0 ≤ roundStep (decMul (p : Int) rate) (dstep c) ∧
          roundStep (decMul (p : Int) rate) (dstep c) ≤ (remainder : Int) ∧
          feeB = some (roundStep (decMul (p : Int) rate) (dstep c)).toNat ∧
          rem2 = remainder - (roundStep (decMul (p : Int) rate) (dstep c)).toNat)) ∧
      w.trader.transientTokens ≠ 0 ∧
      out = { items := [n], feeBucket := feeB } ∧
      w' = { trader := { w.trader with
               latestTransaction := some (n.1, n.2, rec)
               nftVaults := ainsert w.trader.nftVaults n.1 (ids.erase n.2)
               sellerRevenue := creditRev w.trader.sellerRevenue c rem2
               listings := aremove w.trader.listings n
               transientTokens := w.trader.transientTokens - 1 }
             royalty := roy
             nftRule := .allowAll } := by
  cases hL : alookup w.trader.listings n with
  | none => simp [purchaseRoyalListing, hL] at h
  | some L =>
    by_cases hperm : pr ∈ L.secondarySellerPermissions
    · by_cases hp : p = L.price
      · by_cases hc : c = L.currency
        · subst hp
          subst hc
          by_cases htx : tx ∈ w.trader.transactions
          · simp [purchaseRoyalListing, hL, hperm, htx] at h
          · cases hV : alookup w.trader.nftVaults n.1 with
            | none => simp [purchaseRoyalListing, hL, hperm, htx, hV] at h
            | some ids =>
              by_cases hmem : n.2 ∈ ids
              · cases hroy : payRoyaltyBasic dstep w.royalty n.1 (L.currency, L.price) pr with
                | error e =>
                  simp [purchaseRoyalListing, hL, hperm, htx, hV, hmem, hroy] at h
                | ok royrem =>
                  obtain ⟨roy, remainder⟩ := royrem
                  by_cases htt : w.trader.transientTokens = 0
                  · cases fm with
                    | none =>
                      simp [purchaseRoyalListing, hL, hperm, htx, hV, hmem,
                        hroy, htt] at h
                    | some rate =>
                      by_cases hfee : 0 ≤ roundStep (decMul (L.price : Int) rate)
                            (dstep L.currency) ∧
                          roundStep (decMul (L.price : Int) rate) (dstep L.currency) ≤
                            (remainder : Int)
                      · simp [purchaseRoyalListing, hL, hperm, htx, hV, hmem,
                          hroy, hfee.1, hfee.2, htt] at h
                      · simp [purchaseRoyalListing, hL, hperm, htx, hV, hmem,
                          hroy, hfee, htt] at h
                  · cases fm with
                    | none =>
                      simp only [purchaseRoyalListing, hL, if_pos hperm, eq_self_iff_true,
                        if_true, if_neg htx, hV, if_pos hmem, hroy, if_neg htt,
                        Except.ok.injEq, Prod.mk.injEq] at h
                      refine ⟨L, ids, roy, remainder, none, remainder, rfl, hperm, rfl, rfl,
                        htx, rfl, hmem, rfl, Or.inl ⟨rfl, rfl, rfl⟩, htt, ?_, ?_⟩
                      · exact h.2.symm
                      · rw [← h.1]
                    | some rate =>
                      by_cases hfee : 0 ≤ roundStep (decMul (L.price : Int) rate)
                            (dstep L.currency) ∧
                          roundStep (decMul (L.price : Int) rate) (dstep L.currency) ≤
                            (remainder : Int)
                      · simp only [purchaseRoyalListing, hL, if_pos hperm, eq_self_iff_true,
                          if_true, if_neg htx, hV, if_pos hmem, hroy, if_neg htt,
                          if_pos hfee, Except.ok.injEq, Prod.mk.injEq] at h
                        refine ⟨L, ids, roy, remainder,
                          some ((roundStep (decMul (L.price : Int) rate)
                            (dstep L.currency)).toNat),
                          remainder - (roundStep (decMul (L.price : Int) rate)
                            (dstep L.currency)).toNat,
                          rfl, hperm, rfl, rfl, htx, rfl, hmem, rfl,
                          Or.inr ⟨rate, rfl, hfee.1, hfee.2, rfl, rfl⟩, htt, ?_, ?_⟩
                        · exact h.2.symm
                        · rw [← h.1]
                      · simp [purchaseRoyalListing, hL, hperm, htx, hV, hmem,
                          hroy, hfee, htt] at h
              · simp [purchaseRoyalListing, hL, hperm, htx, hV, hmem] at h
        · simp [purchaseRoyalListing, hL, hperm, hp, hc] at h
      · simp [purchaseRoyalListing, hL, hperm, hp] at h
    · simp [purchaseRoyalListing, hL, hperm] at h

/-- Claim C2: in a successful `purchase_royal_listing`, the marketplace fee is
the original full payment amount times the fee rate read from the permission
badge's metadata (no fee bucket when the metadata is absent), rounded toward
zero, and it is taken out of the remainder returned by the royalty call; the
seller receives that remainder minus the fee.  In the specification's scenario
(price 100, royalty rate 0.1, fee rate 0.02) the royalty is 10, the fee is 2
and the seller receives 88. -/
theorem purchase_fee_split :
    (∀ (dstep : ResourceAddr → Nat) (w : World) (tx : TxHash) (n : Nfgid)
      (c : ResourceAddr) (p : Nat) (pr : ResourceAddr) (fm : Option Int)
      (rec : AccountAddr) (w' : World) (out : PurchaseOut) (roy : RoyaltyState)
      (remainder : Nat),
      purchaseRoyalListing dstep w tx n (c, p) pr fm rec = .ok (w', out) →
      payRoyaltyBasic dstep w.royalty n.1 (c, p) pr = .ok (roy, remainder) →
      w'.royalty = roy ∧
      out.feeBucket = (match fm with
        | none => none
        | some rate => some ((roundStep (decMul (p : Int) rate) (dstep c)).toNat)) ∧
      sellerRev w'.trader c = sellerRev w.trader c + (remainder - out.feeBucket.getD 0) ∧
      out.feeBucket.getD 0 ≤ remainder) ∧
    (purchaseRoyalListing atto wListed 0 (1, 5) (9, 100 * 10 ^ 18) 4
        (some (2 * 10 ^ 16)) 9 =
      .ok (wSold, { items := [(1, 5)], feeBucket := some (2 * 10 ^ 18) }) ∧
     sellerRev wSold.trader 9 = 88 * 10 ^ 18 ∧
     vaultBal wSold.royalty 9 = 10 * 10 ^ 18) := by
  constructor
  · intro dstep w tx n c p pr fm rec w' out roy remainder h hroyGiven
    obtain ⟨L, ids, roy', remainder', feeB, rem2, hL, hperm, hp, hc, htx, hV, hmem, hroy,
      hfee, htt, hout, hw⟩ := purchaseRoyalListing_ok h
    rw [hroyGiven] at hroy
    obtain ⟨hr1, hr2⟩ : roy = roy' ∧ remainder = remainder' := by simpa using hroy
    subst hr1
    subst hr2
    subst hw
    subst hout
    rcases hfee with ⟨hfm, hfb, hrem2⟩ | ⟨rate, hfm, hfpos, hfle, hfb, hrem2⟩
    · subst hfm
      subst hfb
      subst hrem2
      refine ⟨rfl, rfl, ?_, by simp⟩
      simp [sellerRev, creditRev, alookup_ainsert_self]
    · subst hfm
      subst hfb
      subst hrem2
      refine ⟨rfl, rfl, ?_, ?_⟩
      · simp [sellerRev, creditRev, alookup_ainsert_self]
      · simpa using Int.toNat_le.mpr hfle
  · refine ⟨by decide, by decide, by decide⟩

/-- Claim C2 (witness): the general fee-split equations instantiated on the
scenario state. -/
theorem purchase_fee_split_witness :
    wSold.royalty = rvAfterSale ∧
    (PurchaseOut.mk [(1, 5)] (some (2 * 10 ^ 18))).feeBucket =
      (match (some (2 * 10 ^ 16) : Option Int) with
        | none => none
        | some rate =>
            some ((roundStep (decMul ((100 * 10 ^ 18 : Nat) : Int) rate) (atto 9)).toNat)) ∧
    sellerRev wSold.trader 9 = sellerRev wListed.trader 9 +
      (90 * 10 ^ 18 - (PurchaseOut.mk [(1, 5)] (some (2 * 10 ^ 18))).feeBucket.getD 0) ∧
    (PurchaseOut.mk [(1, 5)] (some (2 * 10 ^ 18))).feeBucket.getD 0 ≤ 90 * 10 ^ 18 :=
  purchase_fee_split.1 atto wListed 0 (1, 5) 9 (100 * 10 ^ 18) 4 (some (2 * 10 ^ 16)) 9
    wSold (PurchaseOut.mk [(1, 5)] (some (2 * 10 ^ 18))) rvAfterSale (90 * 10 ^ 18)
    (by decide) (by decide)

/-! ## Claim C9: the router's bulk-order grouping. -/

theorem alookup_insertOrder (acc : List (AccountAddr × List (Nfgid × Nat)))
    (b : AccountAddr) (x : Nfgid × Nat) (a : AccountAddr) :
    alookup (insertOrder acc b x) a =
      if a = b then some ((alookup acc b).getD [] ++ [x]) else alookup acc a := by
  induction acc with
  | nil =>
    by_cases hab : a = b <;> simp [insertOrder, alookup, hab]
  | cons hd t ih =>
    obtain ⟨c, xs⟩ := hd
    by_cases hbc : b = c
    · subst hbc
      by_cases hab : a = b <;> simp [insertOrder, alookup, hab]
    · by_cases hac : a = c
      · subst hac
        have hab : ¬ a = b := fun h => hbc h.symm
        simp [insertOrder, hbc, alookup, hab]
      · simp [insertOrder, hbc, alookup, hac, ih]

theorem mem_map_fst_insertOrder (acc : List (AccountAddr × List (Nfgid × Nat)))
    (b : AccountAddr) (x : Nfgid × Nat) (a : AccountAddr) :
    a ∈ (insertOrder acc b x).map Prod.fst ↔ a = b ∨ a ∈ acc.map Prod.fst := by
  induction acc with
  | nil => simp [insertOrder]
  | cons hd t ih =>
    obtain ⟨c, xs⟩ := hd
    by_cases hbc : b = c
    · subst hbc
      by_cases hab : a = b <;> simp [insertOrder, hab]
    · by_cases hac : a = c
      · simp [insertOrder, hbc, hac]
      · simp [insertOrder, hbc, hac, ih]

theorem nodup_map_fst_insertOrder {acc : List (AccountAddr × List (Nfgid × Nat))}
    (b : AccountAddr) (x : Nfgid × Nat) (hn : (acc.map Prod.fst).Nodup) :
    ((insertOrder acc b x).map Prod.fst).Nodup := by
  induction acc with
  | nil => simp [insertOrder]
  | cons hd t ih =>
    obtain ⟨c, xs⟩ := hd
    simp only [List.map_cons, List.nodup_cons] at hn
    by_cases hbc : b = c
    · subst hbc
      simpa [insertOrder] using hn
    · simp only [insertOrder, if_neg hbc, List.map_cons, List.nodup_cons]
      refine ⟨?_, ih hn.2⟩
      intro hc
      rcases (mem_map_fst_insertOrder t b x c).mp hc with h' | h'
      · exact hbc h'.symm
      · exact hn.1 h'

theorem groupByAccount_go (orders : List Order)
    (acc : List (AccountAddr × List (Nfgid × Nat))) (a : AccountAddr) :
    (alookup (orders.foldl (fun acc o => insertOrder acc o.1 o.2) acc) a).getD [] =
      (alookup acc a).getD [] ++ (orders.filter (fun o => o.1 = a)).map (fun o => o.2) := by
  induction orders generalizing acc with
  | nil => simp
  | cons o rest ih =>
    obtain ⟨b, x⟩ := o
    simp only [List.foldl_cons]
    rw [ih]
    by_cases hab : b = a
    · subst hab
      simp [alookup_insertOrder]
    · have hab' : ¬ a = b := fun h => hab h.symm
      simp [alookup_insertOrder, hab', hab]

theorem groupByAccount_keys_go (orders : List Order)
    (acc : List (AccountAddr × List (Nfgid × Nat))) (a : AccountAddr) :
    a ∈ ((orders.foldl (fun acc o => insertOrder acc o.1 o.2) acc).map Prod.fst) ↔
      a ∈ acc.map Prod.fst ∨ a ∈ orders.map Prod.fst := by
  induction orders generalizing acc with
  | nil => simp
  | cons o rest ih =>
    obtain ⟨b, x⟩ := o
    simp only [List.foldl_cons, List.map_cons, List.mem_cons]
    rw [ih, mem_map_fst_insertOrder]
    tauto

theorem groupByAccount_nodup_go (orders : List Order)
    (acc : List (AccountAddr × List (Nfgid × Nat)))
    (hn : (acc.map Prod.fst).Nodup) :
    ((orders.foldl (fun acc o => insertOrder acc o.1 o.2) acc).map Prod.fst).Nodup := by
  induction orders generalizing acc with
  | nil => exact hn
  | cons o rest ih =>
    simp only [List.foldl_cons]
    exact ih _ (nodup_map_fst_insertOrder o.1 o.2 hn)

/-- Claim C9 (counterexample): the claim states that a group with exactly one
item produces a call to the single-item purchase entry point; on the one-order
input the router instead issues a call to the bulk entry point
(`purchase_multi_royal_listings` with a one-element batch — the call to
`purchase_royal_listing` is commented out in the source). -/
theorem router_grouping_counterexample :
    ¬ (∀ call ∈ routeBulk [(0, (1, 1), 10)],
        call.items.length = 1 → call.entry = .singleEntry) := by
  decide

/-- Claim C9 (amended): the router groups a bulk order by destination
EscrowAccount (one call per distinct account, input order preserved inside each
group); every group — a singleton group included — produces exactly one call to
the bulk entry point, whose payment is the sum of that group's prices. -/
theorem router_grouping :
    ∀ orders : List Order,
      (∀ call ∈ routeBulk orders,
        call.entry = .multiEntry ∧
        call.items = (orders.filter (fun o => o.1 = call.account)).map (fun o => o.2.1) ∧
        call.payment =
          ((orders.filter (fun o => o.1 = call.account)).map (fun o => o.2.2)).sum) ∧
      ((routeBulk orders).map RouterCall.account).Nodup ∧
      (∀ a : AccountAddr,
        a ∈ (routeBulk orders).map RouterCall.account ↔ a ∈ orders.map Prod.fst) := by
  intro orders
  have hnod : ((groupByAccount orders).map Prod.fst).Nodup :=
    groupByAccount_nodup_go orders [] (by simp)
  have haccounts : (routeBulk orders).map RouterCall.account =
      (groupByAccount orders).map Prod.fst := by
    simp only [routeBulk, List.map_map]
    refine List.map_congr_left ?_
    intro ag _
    by_cases h1 : ag.2.length = 1 <;> simp [h1]
  refine ⟨?_, ?_, ?_⟩
  · intro call hcall
    simp only [routeBulk, List.mem_map] at hcall
    obtain ⟨⟨a, g⟩, hmem, hcalldef⟩ := hcall
    have hlook : alookup (groupByAccount orders) a = some g :=
      alookup_of_mem_nodup hnod hmem
    have hg : g = (orders.filter (fun o => o.1 = a)).map (fun o => o.2) := by
      have := groupByAccount_go orders [] a
      simp only [groupByAccount] at hlook
      rw [hlook] at this
      simpa [groupByAccount] using this
    have hacct : call.account = a := by
      by_cases h1 : g.length = 1 <;> simp [← hcalldef, h1]
    have hitems : call.items = g.map Prod.fst := by
      by_cases h1 : g.length = 1 <;> simp [← hcalldef, h1]
    have hpay : call.payment = (g.map Prod.snd).sum := by
      by_cases h1 : g.length = 1
      · obtain ⟨y, hy⟩ : ∃ y, g = [y] := List.length_eq_one.mp h1
        subst hy
        simp [← hcalldef]
      · simp [← hcalldef, h1]
    have hentry : call.entry = .multiEntry := by
      by_cases h1 : g.length = 1 <;> simp [← hcalldef, h1]
    refine ⟨hentry, ?_, ?_⟩
    · rw [hitems, hacct, hg, List.map_map]
      rfl
    · rw [hpay, hacct, hg, List.map_map]
      rfl
  · rw [haccounts]
    exact hnod
  · intro a
    rw [haccounts]
    have := groupByAccount_keys_go orders [] a
    simpa [groupByAccount] using this

/-- Claim C9 (amended, witness): the grouping properties evaluated on a
three-order bulk request spanning two accounts. -/
theorem router_grouping_witness :
    (sampleCall.entry = .multiEntry ∧
     sampleCall.items =
       (sampleOrders.filter (fun o => o.1 = sampleCall.account)).map (fun o => o.2.1) ∧
     sampleCall.payment =
       ((sampleOrders.filter (fun o => o.1 = sampleCall.account)).map
         (fun o => o.2.2)).sum) ∧
    ((routeBulk sampleOrders).map RouterCall.account).Nodup :=
  ⟨(router_grouping sampleOrders).1 sampleCall (by decide),
   (router_grouping sampleOrders).2.1⟩

/-! ## Claim C6: the listing/escrow-vault invariant. -/

theorem mem_aremove_ne {α β : Type} [DecidableEq α] {l : List (α × β)} {k : α}
    {p : α × β} (hn : (l.map Prod.fst).Nodup) (h : p ∈ aremove l k) :
    p ∈ l ∧ p.1 ≠ k := by
  induction l with
  | nil => simp [aremove] at h
  | cons hd t ih =>
    obtain ⟨c, b⟩ := hd
    simp only [List.map_cons, List.nodup_cons] at hn
    by_cases hk : k = c
    · subst hk
      simp only [aremove, if_pos rfl] at h
      refine ⟨List.mem_cons_of_mem _ h, ?_⟩
      intro hpk
      exact hn.1 (by simpa [← hpk] using List.mem_map_of_mem Prod.fst h)
    · simp only [aremove, if_neg hk] at h
      rcases List.mem_cons.mp h with h' | h'
      · subst h'
        exact ⟨List.mem_cons_self _ _, fun hpk => hk (by simpa using hpk.symm)⟩
      · obtain ⟨hmem, hne⟩ := ih hn.2 h'
        exact ⟨List.mem_cons_of_mem _ hmem, hne⟩

theorem nodup_foldl_aremove {α β : Type} [DecidableEq α] (gs : List α)
    {l : List (α × β)} (hn : (l.map Prod.fst).Nodup) :
    (((gs.foldl (fun l g => aremove l g) l).map Prod.fst)).Nodup := by
  induction gs generalizing l with
  | nil => exact hn
  | cons g rest ih =>
    simp only [List.foldl_cons]
    exact ih (map_fst_aremove_nodup g hn)

theorem alookup_foldl_aremove {α β : Type} [DecidableEq α] (gs : List α)
    {l : List (α × β)} (hn : (l.map Prod.fst).Nodup) (a : α) :
    alookup (gs.foldl (fun l g => aremove l g) l) a =
      if a ∈ gs then none else alookup l a := by
  induction gs generalizing l with
  | nil => simp
  | cons g rest ih =>
    simp only [List.foldl_cons]
    rw [ih (map_fst_aremove_nodup g hn)]
    by_cases hag : a = g
    · subst hag
      by_cases har : a ∈ rest
      · simp [har]
      · simp [har, alookup_aremove_self hn]
    · by_cases har : a ∈ rest
      · simp [har, hag]
      · simp [har, hag, alookup_aremove_ne _ _ _ hag]

theorem mem_foldl_ainsert {α β γ : Type} [DecidableEq α] {key : γ → α} {val : γ → β}
    {pairs : List γ} {ls0 : List (α × β)} {p : α × β}
    (h : p ∈ pairs.foldl (fun ls gp => ainsert ls (key gp) (val gp)) ls0) :
    p ∈ ls0 ∨ ∃ gp ∈ pairs, p = (key gp, val gp) := by
  induction pairs generalizing ls0 with
  | nil => exact Or.inl h
  | cons g rest ih =>
    simp only [List.foldl_cons] at h
    rcases ih h with h' | h'
    · rcases mem_ainsert h' with h'' | h''
      · exact Or.inr ⟨g, List.mem_cons_self _ _, h''⟩
      · exact Or.inl h''
    · obtain ⟨gp, hgp, he⟩ := h'
      exact Or.inr ⟨gp, List.mem_cons_of_mem _ hgp, he⟩

theorem nodup_foldl_ainsert {α β γ : Type} [DecidableEq α] {key : γ → α} {val : γ → β}
    (pairs : List γ) {ls0 : List (α × β)} (hn : (ls0.map Prod.fst).Nodup) :
    ((pairs.foldl (fun ls gp => ainsert ls (key gp) (val gp)) ls0).map Prod.fst).Nodup := by
  induction pairs generalizing ls0 with
  | nil => exact hn
  | cons g rest ih =>
    simp only [List.foldl_cons]
    exact ih (nodup_map_fst_ainsert _ _ hn)

/-- Removing one listing and erasing its id from its collection's vault
preserves the forward escrow invariant. -/
theorem inv_erase_one {listings : List (Nfgid × Listing)}
    {vaults : List (ResourceAddr × List LocalId)} {n : Nfgid} {ids : List LocalId}
    (hwf : (listings.map Prod.fst).Nodup)
    (hinv : ∀ p ∈ listings, p.1.2 ∈ glook vaults p.1.1)
    (hV : alookup vaults n.1 = some ids) :
    ((aremove listings n).map Prod.fst).Nodup ∧
    ∀ p ∈ aremove listings n,
      p.1.2 ∈ glook (ainsert vaults n.1 (ids.erase n.2)) p.1.1 := by
  refine ⟨map_fst_aremove_nodup n hwf, ?_⟩
  intro p hp
  obtain ⟨hmem, hne⟩ := mem_aremove_ne hwf hp
  by_cases hr : p.1.1 = n.1
  · have hid : p.1.2 ∈ ids := by
      have := hinv p hmem
      rwa [hr, glook, hV] at this
    have hne2 : p.1.2 ≠ n.2 := by
      intro h2
      exact hne (Prod.ext hr h2)
    rw [hr, glook, alookup_ainsert_self]
    simpa using (List.mem_erase_of_ne hne2).mpr hid
  · rw [glook, alookup_ainsert_ne _ _ _ _ hr]
    exact hinv p hmem

/-- Replacing a listing under its existing key (price/permission updates)
preserves the forward escrow invariant. -/
theorem inv_replace_listing {listings : List (Nfgid × Listing)}
    {vaults : List (ResourceAddr × List LocalId)} {n : Nfgid} {L L' : Listing}
    (hwf : (listings.map Prod.fst).Nodup)
    (hinv : ∀ p ∈ listings, p.1.2 ∈ glook vaults p.1.1)
    (hL : alookup listings n = some L) :
    ((ainsert listings n L').map Prod.fst).Nodup ∧
    ∀ p ∈ ainsert listings n L', p.1.2 ∈ glook vaults p.1.1 := by
  refine ⟨nodup_map_fst_ainsert _ _ hwf, ?_⟩
  intro p hp
  rcases mem_ainsert hp with h | h
  · subst h
    exact hinv (n, L) (alookup_mem hL)
  · exact hinv p h

/-- Listing one item and putting it into the vault preserves the forward
escrow invariant. -/
theorem inv_list_one {listings : List (Nfgid × Listing)}
    {vaults : List (ResourceAddr × List LocalId)} {n : Nfgid} {L : Listing}
    (hwf : (listings.map Prod.fst).Nodup)
    (hinv : ∀ p ∈ listings, p.1.2 ∈ glook vaults p.1.1) :
    ((ainsert listings n L).map Prod.fst).Nodup ∧
    ∀ p ∈ ainsert listings n L,
      p.1.2 ∈ glook (vaultPut vaults n.1 [n.2]) p.1.1 := by
  refine ⟨nodup_map_fst_ainsert _ _ hwf, ?_⟩
  intro p hp
  rcases mem_ainsert hp with h | h
  · subst h
    rw [glook_vaultPut_self]
    simp
  · by_cases hr : p.1.1 = n.1
    · rw [hr, glook_vaultPut_self]
      exact List.mem_append_left _ (hr ▸ hinv p h)
    · rw [glook_vaultPut_ne _ _ _ _ hr]
      exact hinv p h

/-- Bulk listing: inserting a listing per pair and putting the whole bucket
into the vault preserves the forward escrow invariant, provided every listed
item is from the bucket's collection and present in the bucket. -/
theorem inv_list_many {listings : List (Nfgid × Listing)}
    {vaults : List (ResourceAddr × List LocalId)} {pairs : List (Nfgid × Nat)}
    {F : Nfgid × Nat → Listing} {items : ResourceAddr × List LocalId}
    (hwf : (listings.map Prod.fst).Nodup)
    (hinv : ∀ p ∈ listings, p.1.2 ∈ glook vaults p.1.1)
    (hcol : ∀ gp ∈ pairs, gp.1.1 = items.1)
    (hsub : ∀ gp ∈ pairs, gp.1.2 ∈ items.2) :
    (((pairs.foldl (fun ls gp => ainsert ls gp.1 (F gp)) listings).map Prod.fst)).Nodup ∧
    ∀ p ∈ pairs.foldl (fun ls gp => ainsert ls gp.1 (F gp)) listings,
      p.1.2 ∈ glook (vaultPut vaults items.1 items.2) p.1.1 := by
  refine ⟨nodup_foldl_ainsert pairs hwf, ?_⟩
  intro p hp
  rcases @mem_foldl_ainsert _ _ _ _ Prod.fst F _ _ _ hp with h | ⟨gp, hgp, he⟩
  · by_cases hr : p.1.1 = items.1
    · rw [hr, glook_vaultPut_self]
      exact List.mem_append_left _ (hr ▸ hinv p h)
    · rw [glook_vaultPut_ne _ _ _ _ hr]
      exact hinv p h
  · subst he
    rw [hcol gp hgp, glook_vaultPut_self]
    exact List.mem_append_right _ (hsub gp hgp)

/-- Removing a coherent batch of listings and their ids (all from the first
item's collection) preserves the forward escrow invariant. -/
theorem inv_remove_many {listings : List (Nfgid × Listing)}
    {vaults : List (ResourceAddr × List LocalId)} {g0 : Nfgid} {gs : List Nfgid}
    (hwf : (listings.map Prod.fst).Nodup)
    (hinv : ∀ p ∈ listings, p.1.2 ∈ glook vaults p.1.1)
    (hcoh : ∀ g ∈ g0 :: gs, g.1 = g0.1) :
    (((g0 :: gs).foldl (fun l g => aremove l g) listings).map Prod.fst).Nodup ∧
    ∀ p ∈ (g0 :: gs).foldl (fun l g => aremove l g) listings,
      p.1.2 ∈ glook (ainsert vaults g0.1
        ((glook vaults g0.1).filter
          (fun i => i ∉ ((g0 :: gs).map Prod.snd).dedup))) p.1.1 := by
  refine ⟨nodup_foldl_aremove _ hwf, ?_⟩
  intro p hp
  obtain ⟨pk, pv⟩ := p
  have hnod' := nodup_foldl_aremove (g0 :: gs) (l := listings) hwf
  have hlook := alookup_of_mem_nodup hnod' hp
  rw [alookup_foldl_aremove _ hwf] at hlook
  by_cases hin : pk ∈ g0 :: gs
  · rw [if_pos hin] at hlook
    cases hlook
  · rw [if_neg hin] at hlook
    have hmem : (pk, pv) ∈ listings := alookup_mem hlook
    have hold : pk.2 ∈ glook vaults pk.1 := hinv (pk, pv) hmem
    by_cases hr : pk.1 = g0.1
    · rw [hr] at hold
      show pk.2 ∈ glook (ainsert vaults g0.1 _) pk.1
      rw [hr, glook, alookup_ainsert_self, Option.getD_some, List.mem_filter]
      refine ⟨hold, ?_⟩
      simp only [decide_eq_true_eq]
      intro hdup
      rw [List.mem_dedup, List.mem_map] at hdup
      obtain ⟨g, hg, hgv⟩ := hdup
      exact hin ((Prod.ext (by rw [hcoh g hg, ← hr]) hgv) ▸ hg)
    · show pk.2 ∈ glook (ainsert vaults g0.1 _) pk.1
      rw [glook, alookup_ainsert_ne _ _ _ _ hr]
      exact hold

theorem royalList_ok {w : World} {tx : TxHash} {item : Nfgid} {price : Nat}
    {currency : ResourceAddr} {perms : List ResourceAddr} {w' : World}
    (h : royalList w tx item price currency perms = .ok w') :
    price ≠ 0 ∧
    w' = { w with trader := { w.trader with
      transactions := tx :: w.trader.transactions
      listings := ainsert w.trader.listings item
        { secondarySellerPermissions := perms, currency := currency, price := price,
          nfgid := item, outpostAccount := w.trader.accountComponent }
      nftVaults := vaultPut w.trader.nftVaults item.1 [item.2] } } := by
  by_cases hp : price = 0
  · simp [royalList, hp] at h
  · simp only [royalList, if_neg hp, Except.ok.injEq] at h
    exact ⟨hp, h.symm⟩

theorem listOp_ok {w : World} {item : Nfgid} {price : Nat}
    {currency : ResourceAddr} {perms : List ResourceAddr} {w' : World}
    (h : listOp w item price currency perms = .ok w') :
    price ≠ 0 ∧
    w' = { w with trader := { w.trader with
      nftVaults := vaultPut w.trader.nftVaults item.1 [item.2]
      listings := ainsert w.trader.listings item
        { secondarySellerPermissions := perms, currency := currency, price := price,
          nfgid := item, outpostAccount := w.trader.accountComponent } } } := by
  by_cases hp : price = 0
  · simp [listOp, hp] at h
  · simp only [listOp, if_neg hp, Except.ok.injEq] at h
    exact ⟨hp, h.symm⟩

theorem multiListCore_ok {t : Trader} {pairs : List (Nfgid × Nat)}
    {currency : ResourceAddr} {perms : List ResourceAddr}
    {items : ResourceAddr × List LocalId} {t' : Trader}
    (h : multiListCore t pairs currency perms items = .ok t') :
    items.2 ≠ [] ∧ (∀ gp ∈ pairs, gp.1.1 = items.1) ∧ (∀ gp ∈ pairs, 0 < gp.2) ∧
    (∀ gp ∈ pairs, gp.1.2 ∈ items.2) ∧
    t' = { t with
      listings := pairs.foldl (fun ls gp => ainsert ls gp.1
        { secondarySellerPermissions := perms, currency := currency, price := gp.2,
          nfgid := gp.1, outpostAccount := t.accountComponent }) t.listings
      nftVaults := vaultPut t.nftVaults items.1 items.2 } := by
  simp only [multiListCore] at h
  by_cases h1 : items.2 = []
  · rw [if_pos h1] at h
    exact Except.noConfusion h
  · rw [if_neg h1] at h
    by_cases h2 : ∀ gp ∈ pairs, gp.1.1 = items.1
    · rw [if_pos h2] at h
      by_cases h3 : ∀ gp ∈ pairs, 0 < gp.2
      · rw [if_pos h3] at h
        by_cases h4 : ∀ gp ∈ pairs, gp.1.2 ∈ items.2
        · rw [if_pos h4] at h
          injection h with h'
          exact ⟨h1, h2, h3, h4, h'.symm⟩
        · rw [if_neg h4] at h
          exact Except.noConfusion h
      · rw [if_neg h3] at h
        exact Except.noConfusion h
    · rw [if_neg h2] at h
      exact Except.noConfusion h

theorem cancelCore_ok {t : Trader} {n : Nfgid} {t' : Trader}
    (h : cancelCore t n = .ok t') :
    ∃ ids L, alookup t.nftVaults n.1 = some ids ∧ n.2 ∈ ids ∧
      alookup t.listings n = some L ∧
      t' = { t with nftVaults := ainsert t.nftVaults n.1 (ids.erase n.2)
                    listings := aremove t.listings n } := by
  cases hV : alookup t.nftVaults n.1 with
  | none => simp [cancelCore, hV] at h
  | some ids =>
    by_cases hmem : n.2 ∈ ids
    · cases hL : alookup t.listings n with
      | none => simp [cancelCore, hV, hmem, hL] at h
      | some L =>
        simp only [cancelCore, hV, if_pos hmem, hL, Except.ok.injEq] at h
        exact ⟨ids, L, rfl, hmem, rfl, h.symm⟩
    · simp [cancelCore, hV, hmem] at h

theorem changePrice_ok {w : World} {n : Nfgid} {newPrice : Nat} {w' : World}
    (h : changePrice w n newPrice = .ok w') :
    ∃ L, alookup w.trader.listings n = some L ∧
      w' = { w with trader := { w.trader with
        listings := ainsert w.trader.listings n { L with price := newPrice } } } := by
  cases hL : alookup w.trader.listings n with
  | none => simp [changePrice, hL] at h
  | some L =>
    simp only [changePrice, hL, Except.ok.injEq] at h
    exact ⟨L, rfl, h.symm⟩

theorem addBuyerPermission_ok {w : World} {n : Nfgid} {pid : ResourceAddr} {w' : World}
    (h : addBuyerPermission w n pid = .ok w') :
    ∃ L, alookup w.trader.listings n = some L ∧
      w' = { w with trader := { w.trader with
        listings := ainsert w.trader.listings n
          { L with secondarySellerPermissions := L.secondarySellerPermissions ++ [pid] } } } := by
  cases hL : alookup w.trader.listings n with
  | none => simp [addBuyerPermission, hL] at h
  | some L =>
    simp only [addBuyerPermission, hL, Except.ok.injEq] at h
    exact ⟨L, rfl, h.symm⟩

theorem revokeMarketPermission_ok {w : World} {n : Nfgid} {pid : ResourceAddr} {w' : World}
    (h : revokeMarketPermission w n pid = .ok w') :
    ∃ L, alookup w.trader.listings n = some L ∧
      w' = { w with trader := { w.trader with
        listings := ainsert w.trader.listings n
          { L with secondarySellerPermissions :=
              L.secondarySellerPermissions.filter (fun q => q ≠ pid) } } } := by
  cases hL : alookup w.trader.listings n with
  | none => simp [revokeMarketPermission, hL] at h
  | some L =>
    simp only [revokeMarketPermission, hL, Except.ok.injEq] at h
    exact ⟨L, rfl, h.symm⟩

theorem cleared_fields {holds : AccountAddr → ResourceAddr → LocalId → Bool}
    {w : World} {tok : FBucket} {w' : World} (h : cleared holds w tok = .ok w') :
    w'.trader.listings = w.trader.listings ∧
    w'.trader.nftVaults = w.trader.nftVaults := by
  by_cases h1 : tok.2 = 1
  · by_cases h2 : tok.1 = w.trader.transientTokenAddress
    · cases hlt : w.trader.latestTransaction with
      | none => simp [cleared, h1, h2, hlt] at h
      | some rla =>
        obtain ⟨r, l, a⟩ := rla
        by_cases hh : holds a r l
        · simp only [cleared, if_pos h1, if_pos h2, hlt, hh, if_true,
            Except.ok.injEq] at h
          rw [← h]
          exact ⟨rfl, rfl⟩
        · simp [cleared, h1, h2, hlt, hh] at h
    · simp [cleared, h1, h2] at h
  · simp [cleared, h1] at h

theorem multiCleared_fields {holds : AccountAddr → ResourceAddr → LocalId → Bool}
    {w : World} {tok : FBucket} {w' : World} (h : multiCleared holds w tok = .ok w') :
    w'.trader.listings = w.trader.listings ∧
    w'.trader.nftVaults = w.trader.nftVaults := by
  by_cases h2 : tok.1 = w.trader.transientTokenAddress
  · cases hlt : w.trader.latestBulkTransaction with
    | none => simp [multiCleared, h2, hlt] at h
    | some ags =>
      obtain ⟨a, gs⟩ := ags
      cases gs with
      | nil => simp [multiCleared, h2, hlt] at h
      | cons g0 rest =>
        by_cases hh : ∀ g ∈ g0 :: rest, holds a g0.1 g.2
        · simp only [multiCleared, if_pos h2, hlt, if_pos hh, Except.ok.injEq] at h
          rw [← h]
          exact ⟨rfl, rfl⟩
        · simp only [multiCleared, if_pos h2, hlt, if_neg hh] at h
          exact Except.noConfusion h
  · simp [multiCleared, h2] at h

theorem takeItems_inv {gs : List Nfgid} {t t' : Trader}
    (h : takeItems t gs = .ok t')
    (hwf : ListingsWF t) (hinv : EscrowInvFwd t) :
    ListingsWF t' ∧ EscrowInvFwd t' := by
  induction gs generalizing t with
  | nil =>
    simp only [takeItems] at h
    injection h with h'
    subst h'
    exact ⟨hwf, hinv⟩
  | cons g rest ih =>
    simp only [takeItems] at h
    split at h
    · exact Except.noConfusion h
    · rename_i ids hV
      split at h
      · rename_i hmem
        have hstep := inv_erase_one (n := g) hwf hinv hV
        exact ih h hstep.1 hstep.2
      · exact Except.noConfusion h

theorem purchaseListing_ok {dstep : ResourceAddr → Nat} {w : World} {n : Nfgid}
    {c : ResourceAddr} {p : Nat} {pr : ResourceAddr} {fm : Option Int}
    {w' : World} {out : PurchaseOut}
    (h : purchaseListing dstep w n (c, p) pr fm = .ok (w', out)) :
    ∃ ids rem2, alookup w.trader.nftVaults n.1 = some ids ∧ n.2 ∈ ids ∧
      w' = { w with trader := { w.trader with
        nftVaults := ainsert w.trader.nftVaults n.1 (ids.erase n.2)
        sellerRevenue := creditRev w.trader.sellerRevenue c rem2
        listings := aremove w.trader.listings n } } := by
  cases hL : alookup w.trader.listings n with
  | none => simp [purchaseListing, hL] at h
  | some L =>
    by_cases hperm : pr ∈ L.secondarySellerPermissions
    · by_cases hp : p = L.price
      · by_cases hc : c = L.currency
        · subst hp
          subst hc
          cases hV : alookup w.trader.nftVaults n.1 with
          | none => simp [purchaseListing, hL, hperm, hV] at h
          | some ids =>
            by_cases hmem : n.2 ∈ ids
            · cases fm with
              | none =>
                simp [purchaseListing, hL, hperm, hV, hmem] at h
                exact ⟨ids, L.price, rfl, hmem, h.1.symm⟩
              | some rate =>
                by_cases hfpos : 0 < decMul (L.price : Int) rate
                · by_cases hfee : 0 ≤ roundStep (decMul (L.price : Int) rate)
                      (dstep L.currency) ∧
                      roundStep (decMul (L.price : Int) rate) (dstep L.currency) ≤
                        (L.price : Int)
                  · simp only [purchaseListing, hL, if_pos hperm, eq_self_iff_true,
                      if_true, hV, if_pos hmem, if_pos hfpos, if_pos hfee,
                      Except.ok.injEq, Prod.mk.injEq] at h
                    exact ⟨ids,
                      L.price - (roundStep (decMul (L.price : Int) rate)
                        (dstep L.currency)).toNat, rfl, hmem, h.1.symm⟩
                  · simp [purchaseListing, hL, hperm, hV, hmem, hfpos, hfee] at h
                · simp only [purchaseListing, hL, if_pos hperm, eq_self_iff_true,
                    if_true, hV, if_pos hmem, if_neg hfpos,
                    Except.ok.injEq, Prod.mk.injEq] at h
                  exact ⟨ids, L.price, rfl, hmem, h.1.symm⟩
            · simp [purchaseListing, hL, hperm, hV, hmem] at h
        · simp [purchaseListing, hL, hperm, hp, hc] at h
      · simp [purchaseListing, hL, hperm, hp] at h
    · simp [purchaseListing, hL, hperm] at h

theorem multiPurchaseListing_ok {dstep : ResourceAddr → Nat} {w : World}
    {nfgids : List Nfgid} {c : ResourceAddr} {p : Nat} {pr : ResourceAddr}
    {fm : Option Int} {w' : World} {out : PurchaseOut}
    (h : multiPurchaseListing dstep w nfgids (c, p) pr fm = .ok (w', out)) :
    ∃ t1 rem2, takeItems w.trader nfgids = .ok t1 ∧
      w' = { w with trader := { t1 with
        sellerRevenue := creditRev t1.sellerRevenue c rem2 } } := by
  cases hls : listingsOf w.trader.listings nfgids with
  | none => simp [multiPurchaseListing, hls] at h
  | some ls =>
    by_cases hperm : ∀ L ∈ ls, pr ∈ L.secondarySellerPermissions
    · cases ls with
      | nil => simp [multiPurchaseListing, hls, hperm] at h
      | cons L0 ls' =>
        by_cases hcur : ∀ L ∈ L0 :: ls', L.currency = L0.currency
        · by_cases hpc : c = L0.currency
          · by_cases hpay : p = ((L0 :: ls').map Listing.price).sum
            · subst hpc
              subst hpay
              cases htake : takeItems w.trader nfgids with
              | error e =>
                cases fm with
                | none =>
                  simp only [multiPurchaseListing, hls, if_pos hperm, if_pos hcur,
                    eq_self_iff_true, if_true, lt_irrefl, if_false, htake] at h
                  exact Except.noConfusion h
                | some rate =>
                  by_cases hfpos : 0 < decMul
                      ((((L0 :: ls').map Listing.price).sum : Nat) : Int) rate
                  · by_cases hfee : 0 ≤ roundStep (decMul
                        ((((L0 :: ls').map Listing.price).sum : Nat) : Int) rate)
                          (dstep L0.currency) ∧
                        roundStep (decMul
                          ((((L0 :: ls').map Listing.price).sum : Nat) : Int) rate)
                            (dstep L0.currency) ≤
                          ((((L0 :: ls').map Listing.price).sum : Nat) : Int)
                    · simp only [multiPurchaseListing, hls, if_pos hperm, if_pos hcur,
                        eq_self_iff_true, if_true, if_pos hfpos, if_pos hfee, htake] at h
                      exact Except.noConfusion h
                    · simp only [multiPurchaseListing, hls, if_pos hperm, if_pos hcur,
                        eq_self_iff_true, if_true, if_pos hfpos, if_neg hfee] at h
                      exact Except.noConfusion h
                  · simp only [multiPurchaseListing, hls, if_pos hperm, if_pos hcur,
                      eq_self_iff_true, if_true, if_neg hfpos, htake] at h
                    exact Except.noConfusion h
              | ok t1 =>
                cases fm with
                | none =>
                  simp only [multiPurchaseListing, hls, if_pos hperm, if_pos hcur,
                    eq_self_iff_true, if_true, lt_irrefl, if_false, htake,
                    Except.ok.injEq, Prod.mk.injEq] at h
                  exact ⟨t1, _, rfl, h.1.symm⟩
                | some rate =>
                  by_cases hfpos : 0 < decMul
                      ((((L0 :: ls').map Listing.price).sum : Nat) : Int) rate
                  · by_cases hfee : 0 ≤ roundStep (decMul
                        ((((L0 :: ls').map Listing.price).sum : Nat) : Int) rate)
                          (dstep L0.currency) ∧
                        roundStep (decMul
                          ((((L0 :: ls').map Listing.price).sum : Nat) : Int) rate)
                            (dstep L0.currency) ≤
                          ((((L0 :: ls').map Listing.price).sum : Nat) : Int)
                    · simp only [multiPurchaseListing, hls, if_pos hperm, if_pos hcur,
                        eq_self_iff_true, if_true, if_pos hfpos, if_pos hfee, htake,
                        Except.ok.injEq, Prod.mk.injEq] at h
                      exact ⟨t1, _, rfl, h.1.symm⟩
                    · simp only [multiPurchaseListing, hls, if_pos hperm, if_pos hcur,
                        eq_self_iff_true, if_true, if_pos hfpos, if_neg hfee] at h
                      exact Except.noConfusion h
                  · simp only [multiPurchaseListing, hls, if_pos hperm, if_pos hcur,
                      eq_self_iff_true, if_true, if_neg hfpos, htake,
                      Except.ok.injEq, Prod.mk.injEq] at h
                    exact ⟨t1, _, rfl, h.1.symm⟩
            · simp only [multiPurchaseListing, hls, if_pos hperm, if_pos hcur,
                if_pos hpc, if_neg hpay] at h
              exact Except.noConfusion h
          · simp only [multiPurchaseListing, hls, if_pos hperm, if_pos hcur,
              if_neg hpc] at h
            exact Except.noConfusion h
        · simp only [multiPurchaseListing, hls, if_pos hperm, if_neg hcur] at h
          exact Except.noConfusion h
    · simp only [multiPurchaseListing, hls, if_neg hperm] at h
      exact Except.noConfusion h

theorem purchaseMultiRoyalListings_ok {dstep : ResourceAddr → Nat} {w : World}
    {tx : TxHash} {nfgids : List Nfgid} {c : ResourceAddr} {p : Nat}
    {pr : ResourceAddr} {fm : Option Int} {rec : AccountAddr}
    {w' : World} {out : PurchaseOut}
    (h : purchaseMultiRoyalListings dstep w tx nfgids (c, p) pr fm rec = .ok (w', out)) :
    ∃ (g0 : Nfgid) (gs : List Nfgid) (roy : RoyaltyState) (rem2 : Nat),
      nfgids = g0 :: gs ∧
      w' = { trader := { w.trader with
               latestBulkTransaction := some (rec, g0 :: gs)
               nftVaults := ainsert w.trader.nftVaults g0.1
                 ((glook w.trader.nftVaults g0.1).filter
                   (fun i => i ∉ ((g0 :: gs).map Prod.snd).dedup))
               listings := (g0 :: gs).foldl (fun l g => aremove l g) w.trader.listings
               sellerRevenue := creditRev w.trader.sellerRevenue c rem2
               transientTokens := w.trader.transientTokens - 1 }
             royalty := roy
             nftRule := .allowAll } := by
  cases nfgids with
  | nil => simp [purchaseMultiRoyalListings, listingsOf] at h
  | cons g0 gs =>
    cases hls : listingsOf w.trader.listings (g0 :: gs) with
    | none => simp [purchaseMultiRoyalListings, hls] at h
    | some ls =>
      by_cases hperm : ∀ L ∈ ls, pr ∈ L.secondarySellerPermissions
      · cases ls with
        | nil =>
          exfalso
          simp only [listingsOf] at hls
          split at hls
          · simp at hls
          · cases hls
        | cons L0 ls' =>
          by_cases hcur : ∀ L ∈ L0 :: ls', L.currency = L0.currency
          · by_cases hpc : c = L0.currency
            · by_cases hpay : p = ((L0 :: ls').map Listing.price).sum
              · subst hpc
                subst hpay
                by_cases htx : tx ∈ w.trader.transactions
                · simp only [purchaseMultiRoyalListings, hls, if_pos hperm,
                    if_pos hcur, eq_self_iff_true, if_true, if_pos htx] at h
                  exact Except.noConfusion h
                · by_cases hvault : ∀ i ∈ ((g0 :: gs).map Prod.snd).dedup,
                      i ∈ glook w.trader.nftVaults g0.1
                  · cases hroy : payRoyalty dstep w.royalty g0.1
                        ((g0 :: gs).map Prod.snd).dedup
                        (L0.currency, ((L0 :: ls').map Listing.price).sum) pr rec with
                    | error e =>
                      simp only [purchaseMultiRoyalListings, hls, if_pos hperm,
                        if_pos hcur, eq_self_iff_true, if_true, if_neg htx,
                        if_pos hvault, hroy] at h
                      exact Except.noConfusion h
                    | ok royrem =>
                      obtain ⟨roy, remainder⟩ := royrem
                      by_cases htt : w.trader.transientTokens = 0
                      · cases fm with
                        | none =>
                          simp only [purchaseMultiRoyalListings, hls, if_pos hperm,
                            if_pos hcur, eq_self_iff_true, if_true, if_neg htx,
                            if_pos hvault, hroy, if_pos htt] at h
                          exact Except.noConfusion h
                        | some rate =>
                          by_cases hfee : 0 ≤ roundStep (decMul
                              ((((L0 :: ls').map Listing.price).sum : Nat) : Int) rate)
                                (dstep L0.currency) ∧
                              roundStep (decMul
                                ((((L0 :: ls').map Listing.price).sum : Nat) : Int) rate)
                                  (dstep L0.currency) ≤ (remainder : Int)
                          · simp only [purchaseMultiRoyalListings, hls, if_pos hperm,
                              if_pos hcur, eq_self_iff_true, if_true, if_neg htx,
                              if_pos hvault, hroy, if_pos hfee, if_pos htt] at h
                            exact Except.noConfusion h
                          · simp only [purchaseMultiRoyalListings, hls, if_pos hperm,
                              if_pos hcur, eq_self_iff_true, if_true, if_neg htx,
                              if_pos hvault, hroy, if_neg hfee] at h
                            exact Except.noConfusion h
                      · cases fm with
                        | none =>
                          simp only [purchaseMultiRoyalListings, hls, if_pos hperm,
                            if_pos hcur, eq_self_iff_true, if_true, if_neg htx,
                            if_pos hvault, hroy, if_neg htt,
                            Except.ok.injEq, Prod.mk.injEq] at h
                          exact ⟨g0, gs, roy, remainder, rfl, h.1.symm⟩
                        | some rate =>
                          by_cases hfee : 0 ≤ roundStep (decMul
                              ((((L0 :: ls').map Listing.price).sum : Nat) : Int) rate)
                                (dstep L0.currency) ∧
                              roundStep (decMul
                                ((((L0 :: ls').map Listing.price).sum : Nat) : Int) rate)
                                  (dstep L0.currency) ≤ (remainder : Int)
                          · simp only [purchaseMultiRoyalListings, hls, if_pos hperm,
                              if_pos hcur, eq_self_iff_true, if_true, if_neg htx,
                              if_pos hvault, hroy, if_neg htt, if_pos hfee,
                              Except.ok.injEq, Prod.mk.injEq] at h
                            exact ⟨g0, gs, roy,
                              remainder - (roundStep (decMul
                                ((((L0 :: ls').map Listing.price).sum : Nat) : Int) rate)
                                  (dstep L0.currency)).toNat, rfl, h.1.symm⟩
                          · simp only [purchaseMultiRoyalListings, hls, if_pos hperm,
                              if_pos hcur, eq_self_iff_true, if_true, if_neg htx,
                              if_pos hvault, hroy, if_neg hfee] at h
                            exact Except.noConfusion h
                  · simp only [purchaseMultiRoyalListings, hls, if_pos hperm,
                      if_pos hcur, eq_self_iff_true, if_true, if_neg htx,
                      if_neg hvault] at h
                    exact Except.noConfusion h
              · simp only [purchaseMultiRoyalListings, hls, if_pos hperm,
                  if_pos hcur, if_pos hpc, eq_self_iff_true, if_true,
                  if_neg hpay] at h
                exact Except.noConfusion h
            · simp only [purchaseMultiRoyalListings, hls, if_pos hperm,
                if_pos hcur, if_neg hpc] at h
              exact Except.noConfusion h
          · simp only [purchaseMultiRoyalListings, hls, if_pos hperm,
              if_neg hcur] at h
            exact Except.noConfusion h
      · simp only [purchaseMultiRoyalListings, hls, if_neg hperm] at h
        exact Except.noConfusion h

/-- Claim C6 (counterexample to the stated "iff"): `multi_list` vaults the
whole input bucket but records listings only for the listed keys, so from an
account satisfying the two-sided escrow invariant, listing one item while
depositing a two-item bucket yields a state where an un-listed item sits in
the escrow vault — the backward direction of the invariant fails. -/
theorem escrow_invariant_counterexample :
    EscrowInv w0.trader ∧
    (step (Op.multiList [((1, 1), 5)] 7 [] (1, [1, 2])) w0).map
      (fun w => decide (EscrowInv w.trader)) = .ok false := by
  decide

/-- Claim C6 (amended): every `EscrowAccount` operation preserves the forward
escrow invariant — each Listing's item sits in the account's escrow vault
under its key — together with uniqueness of listing keys. `list`/`multi_list`
insert at least the listed items into the vault (the deposited bucket may be
larger, which is why the backward direction fails), purchases and
cancellations remove the listing and the vaulted item together, and a bulk
royalty purchase must be collection-coherent because the source takes the
whole batch out of the first item's collection vault. -/
theorem escrow_invariant_forward (op : Op) (w w' : World)
    (hwf : ListingsWF w.trader) (hinv : EscrowInvFwd w.trader)
    (hcoh : OpCoherent op) (h : step op w = .ok w') :
    ListingsWF w'.trader ∧ EscrowInvFwd w'.trader := by
  cases op with
  | royalList tx item price cur perms =>
    simp only [step] at h
    obtain ⟨-, hw⟩ := royalList_ok h
    subst hw
    exact ⟨(inv_list_one hwf hinv).1, (inv_list_one hwf hinv).2⟩
  | royalMultiList tx pairs cur perms items =>
    simp only [step, royalMultiList] at h
    cases hcall : multiListCore
        { w.trader with transactions := tx :: w.trader.transactions }
        pairs cur perms items with
    | error e =>
      simp only [hcall] at h
      exact Except.noConfusion h
    | ok t =>
      simp only [hcall, Except.ok.injEq] at h
      subst h
      obtain ⟨-, hcol, -, hsub, ht⟩ := multiListCore_ok hcall
      subst ht
      exact ⟨(inv_list_many hwf hinv hcol hsub).1,
        (inv_list_many hwf hinv hcol hsub).2⟩
  | list item price cur perms =>
    simp only [step] at h
    obtain ⟨-, hw⟩ := listOp_ok h
    subst hw
    exact ⟨(inv_list_one hwf hinv).1, (inv_list_one hwf hinv).2⟩
  | multiList pairs cur perms items =>
    simp only [step, multiList] at h
    cases hcall : multiListCore w.trader pairs cur perms items with
    | error e =>
      simp only [hcall] at h
      exact Except.noConfusion h
    | ok t =>
      simp only [hcall, Except.ok.injEq] at h
      subst h
      obtain ⟨-, hcol, -, hsub, ht⟩ := multiListCore_ok hcall
      subst ht
      exact ⟨(inv_list_many hwf hinv hcol hsub).1,
        (inv_list_many hwf hinv hcol hsub).2⟩
  | purchaseRoyal d tx n pay pr fm rec =>
    obtain ⟨c, p⟩ := pay
    simp only [step] at h
    cases hcall : purchaseRoyalListing d w tx n (c, p) pr fm rec with
    | error e =>
      simp only [hcall, Except.map] at h
      exact Except.noConfusion h
    | ok res =>
      obtain ⟨w2, out⟩ := res
      simp only [hcall, Except.map, Except.ok.injEq] at h
      subst h
      obtain ⟨L, ids, roy, rem, feeB, rem2, -, -, -, -, -, hV, -, -, -, -, -, hw⟩ :=
        purchaseRoyalListing_ok hcall
      subst hw
      exact ⟨(inv_erase_one hwf hinv hV).1, (inv_erase_one hwf hinv hV).2⟩
  | purchaseMultiRoyal d tx ns pay pr fm rec =>
    obtain ⟨c, p⟩ := pay
    simp only [step] at h
    cases hcall : purchaseMultiRoyalListings d w tx ns (c, p) pr fm rec with
    | error e =>
      simp only [hcall, Except.map] at h
      exact Except.noConfusion h
    | ok res =>
      obtain ⟨w2, out⟩ := res
      simp only [hcall, Except.map, Except.ok.injEq] at h
      subst h
      obtain ⟨g0, gs, roy, rem2, hns, hw⟩ := purchaseMultiRoyalListings_ok hcall
      subst hw
      subst hns
      simp only [OpCoherent] at hcoh
      have hcoh' : ∀ g ∈ g0 :: gs, g.1 = g0.1 := by
        intro g hg
        simpa using hcoh g hg
      exact ⟨(inv_remove_many hwf hinv hcoh').1, (inv_remove_many hwf hinv hcoh').2⟩
  | purchase d n pay pr fm =>
    obtain ⟨c, p⟩ := pay
    simp only [step] at h
    cases hcall : purchaseListing d w n (c, p) pr fm with
    | error e =>
      simp only [hcall, Except.map] at h
      exact Except.noConfusion h
    | ok res =>
      obtain ⟨w2, out⟩ := res
      simp only [hcall, Except.map, Except.ok.injEq] at h
      subst h
      obtain ⟨ids, rem2, hV, -, hw⟩ := purchaseListing_ok hcall
      subst hw
      exact ⟨(inv_erase_one hwf hinv hV).1, (inv_erase_one hwf hinv hV).2⟩
  | multiPurchase d ns pay pr fm =>
    obtain ⟨c, p⟩ := pay
    simp only [step] at h
    cases hcall : multiPurchaseListing d w ns (c, p) pr fm with
    | error e =>
      simp only [hcall, Except.map] at h
      exact Except.noConfusion h
    | ok res =>
      obtain ⟨w2, out⟩ := res
      simp only [hcall, Except.map, Except.ok.injEq] at h
      subst h
      obtain ⟨t1, rem2, ht, hw⟩ := multiPurchaseListing_ok hcall
      subst hw
      exact ⟨(takeItems_inv ht hwf hinv).1, (takeItems_inv ht hwf hinv).2⟩
  | cancel n =>
    simp only [step, cancelListing] at h
    cases hcall : cancelCore w.trader n with
    | error e =>
      simp only [hcall] at h
      exact Except.noConfusion h
    | ok t =>
      simp only [hcall, Except.ok.injEq] at h
      subst h
      obtain ⟨ids, L, hV, -, -, ht⟩ := cancelCore_ok hcall
      subst ht
      exact ⟨(inv_erase_one hwf hinv hV).1, (inv_erase_one hwf hinv hV).2⟩
  | cancelRoyal n =>
    simp only [step, cancelRoyalListing] at h
    cases hcall : cancelCore w.trader n with
    | error e =>
      simp only [hcall] at h
      exact Except.noConfusion h
    | ok t =>
      simp only [hcall, Except.ok.injEq] at h
      subst h
      obtain ⟨ids, L, hV, -, -, ht⟩ := cancelCore_ok hcall
      subst ht
      exact ⟨(inv_erase_one hwf hinv hV).1, (inv_erase_one hwf hinv hV).2⟩
  | changePrice n np =>
    simp only [step] at h
    obtain ⟨L, hL, hw⟩ := changePrice_ok h
    subst hw
    exact ⟨(inv_replace_listing hwf hinv hL).1, (inv_replace_listing hwf hinv hL).2⟩
  | addPermission n pid =>
    simp only [step] at h
    obtain ⟨L, hL, hw⟩ := addBuyerPermission_ok h
    subst hw
    exact ⟨(inv_replace_listing hwf hinv hL).1, (inv_replace_listing hwf hinv hL).2⟩
  | revokePermission n pid =>
    simp only [step] at h
    obtain ⟨L, hL, hw⟩ := revokeMarketPermission_ok h
    subst hw
    exact ⟨(inv_replace_listing hwf hinv hL).1, (inv_replace_listing hwf hinv hL).2⟩
  | clear hl tok =>
    simp only [step] at h
    obtain ⟨hls, hvs⟩ := cleared_fields h
    refine ⟨?_, ?_⟩
    · show ((w'.trader.listings.map Prod.fst)).Nodup
      rw [hls]
      exact hwf
    · intro q hq
      rw [hvs]
      rw [hls] at hq
      exact hinv q hq
  | multiClear hl tok =>
    simp only [step] at h
    obtain ⟨hls, hvs⟩ := multiCleared_fields h
    refine ⟨?_, ?_⟩
    · show ((w'.trader.listings.map Prod.fst)).Nodup
      rw [hls]
      exact hwf
    · intro q hq
      rw [hvs]
      rw [hls] at hq
      exact hinv q hq

theorem escrow_invariant_forward_witness :
    ListingsWF wPriced.trader ∧ EscrowInvFwd wPriced.trader :=
  escrow_invariant_forward (Op.changePrice (1, 5) 7) wListed wPriced
    (by decide) (by decide) (by trivial) (by decide)

end Outpost
